import Mathlib

/-!
Verification of the simple-redis RESP codec and command layer.

This file is a shallow embedding, in Lean 4, of the core of the repository:

* the frame model (`src/resp/*.rs`) with its incremental encoder/decoder,
* the two-phase batch codec (`src/respv2/parse.rs`, `src/respv2/mod.rs`),
* the command parser and the executors (`src/cmd/*.rs`).

Bytes are modelled as `Nat` (the sources only ever compare and copy them),
buffers as `List Nat`.  A Rust `String` is modelled by its UTF-8 byte
sequence; `String::from_utf8_lossy` is modelled faithfully, including the
U+FFFD replacement of maximal invalid subparts.  A Rust `f64` is carried
as the byte text it was parsed from: IEEE-754 arithmetic and float
formatting are outside the embedding, and every theorem below either
avoids `Double` frames or treats them opaquely.

The crate files `resp/mod.rs` (frame enum, `parse_length`,
`calc_total_length`, `extract_fixed_data`, `extract_simple_frame_data`,
the `RespFrame` decode dispatcher, `RespSet`) and `backend/*` are not part
of the sources available here; the corresponding definitions are modelled
from the specification and are marked `Modelled from the spec:` in their
doc comments.

Unbounded recursion (the grammar is recursively nested) is modelled with
explicit fuel, built with `Nat.rec` so that every function reduces inside
the kernel (`rfl`/`decide` work on concrete inputs).  Top-level wrappers
instantiate the fuel with `buffer length + 1`, which is proved (or used)
sufficient in every lemma that needs it.
-/

/-! ### Bytes, buffers, decimal digits -/

abbrev Buffer := List Nat

/-- The two CRLF bytes `\r\n`. -/
def CRLF : Buffer := [13, 10]

/-- ASCII decimal digit test. -/
def isDigitByte (b : Nat) : Bool := 48 ≤ b && b ≤ 57

/-- Decimal digits of `n`, most significant first, as ASCII bytes.
Mirrors Rust's `format!("{}", n)` for unsigned integers. -/
def natToDec (n : Nat) : Buffer :=
  if n = 0 then [48] else ((Nat.digits 10 n).map (fun d => d + 48)).reverse

/-- Signed decimal rendering, mirroring Rust's `format!("{}", i)` for `i64`. -/
def intToDec (i : Int) : Buffer :=
  if i < 0 then 45 :: natToDec i.natAbs else natToDec i.toNat

/-- Numeric value of a digit string (most significant first); callers check
that all bytes are digits before relying on the value. -/
def digitsVal (l : Buffer) : Nat := l.foldl (fun a b => a * 10 + (b - 48)) 0

/-- Parse a non-empty all-digit byte string, failing when the value exceeds
`bound` (models the overflow failure of Rust's integer `from_str`). -/
def parseDigitsBounded (bound : Nat) (l : Buffer) : Option Nat :=
  if l = [] then none
  else if l.all isDigitByte then
    if digitsVal l ≤ bound then some (digitsVal l) else none
  else none

/-- Model of `i64::from_str`: optional sign, digits, two's-complement bounds. -/
def rustParseI64 (l : Buffer) : Option Int :=
  if l.head? = some 43 then (parseDigitsBounded (2 ^ 63 - 1) l.tail).map Int.ofNat
  else if l.head? = some 45 then (parseDigitsBounded (2 ^ 63) l.tail).map (fun n => -(n : Int))
  else (parseDigitsBounded (2 ^ 63 - 1) l).map Int.ofNat

/-- Modelled from the spec: the length field of a frame header is read as an
optionally signed decimal (`resp/mod.rs` is not under `src/`); magnitudes
beyond `usize::MAX` fail to parse. -/
def parseSignedDec (l : Buffer) : Option Int :=
  if l.head? = some 45 then (parseDigitsBounded (2 ^ 64 - 1) l.tail).map (fun n => -(n : Int))
  else (parseDigitsBounded (2 ^ 64 - 1) l).map Int.ofNat

/-! ### CRLF search -/

/-- Index of the first occurrence of the two-byte subsequence `\r\n`. -/
def findCRLFsub : Buffer → Option Nat
  | 13 :: 10 :: _ => some 0
  | _ :: rest => (findCRLFsub rest).map (· + 1)
  | [] => none

/-- Does the byte sequence contain an embedded `\r\n`? -/
def hasCRLF (l : Buffer) : Bool := (findCRLFsub l).isSome

/-! ### UTF-8 validity and lossy decoding

Rust strings are UTF-8 byte sequences; `String::from_utf8` fails on invalid
input while `String::from_utf8_lossy` replaces each maximal invalid subpart
with U+FFFD (bytes `EF BF BD`).  `utf8Step` returns, for a non-empty buffer,
whether the first character is well-formed together with the number of bytes
to consume (the length of the character, or of the invalid subpart). -/

/-- Is `b` a UTF-8 continuation byte (`80..BF`)? -/
def utf8Cont (b : Nat) : Bool := 128 ≤ b && b ≤ 191

/-- One step of UTF-8 validation: `(ok, consumed)` for the first character
or maximal invalid subpart of `l` (only called on non-empty `l`). -/
def utf8Step (l : Buffer) : Bool × Nat :=
  match l with
  | [] => (true, 1)
  | b :: rest =>
    if b ≤ 127 then (true, 1)
    else if 194 ≤ b && b ≤ 223 then
      match rest with
      | b1 :: _ => if utf8Cont b1 then (true, 2) else (false, 1)
      | [] => (false, 1)
    else if (b = 224) || (225 ≤ b && b ≤ 239) then
      -- three-byte sequences; the first continuation range depends on b
      let lo := if b = 224 then 160 else 128
      let hi := if b = 237 then 159 else 191
      match rest with
      | b1 :: rest1 =>
        if lo ≤ b1 && b1 ≤ hi then
          match rest1 with
          | b2 :: _ => if utf8Cont b2 then (true, 3) else (false, 2)
          | [] => (false, 2)
        else (false, 1)
      | [] => (false, 1)
    else if 240 ≤ b && b ≤ 244 then
      -- four-byte sequences; the first continuation range depends on b
      let lo := if b = 240 then 144 else 128
      let hi := if b = 244 then 143 else 191
      match rest with
      | b1 :: rest1 =>
        if lo ≤ b1 && b1 ≤ hi then
          match rest1 with
          | b2 :: rest2 =>
            if utf8Cont b2 then
              match rest2 with
              | b3 :: _ => if utf8Cont b3 then (true, 4) else (false, 3)
              | [] => (false, 3)
            else (false, 2)
          | [] => (false, 2)
        else (false, 1)
      | [] => (false, 1)
    else (false, 1)

/-- One unfolding of the lossy decoder. -/
def utf8LossyStep (g : Buffer → Buffer) (l : Buffer) : Buffer :=
  match l with
  | [] => []
  | _ :: _ =>
    let s := utf8Step l
    (if s.1 then l.take s.2 else [239, 191, 189]) ++ g (l.drop s.2)

/-- Fuelled lossy decoder. -/
def utf8LossyF (fuel : Nat) : Buffer → Buffer :=
  Nat.rec (motive := fun _ => Buffer → Buffer)
    (fun _ => []) (fun _ ih => utf8LossyStep ih) fuel

/-- Model of `String::from_utf8_lossy` (as bytes). -/
def utf8Lossy (l : Buffer) : Buffer := utf8LossyF (l.length + 1) l

/-- One unfolding of the validity check. -/
def utf8ValidStep (g : Buffer → Bool) (l : Buffer) : Bool :=
  match l with
  | [] => true
  | _ :: _ =>
    let s := utf8Step l
    s.1 && g (l.drop s.2)

/-- Fuelled validity check. -/
def utf8ValidF (fuel : Nat) : Buffer → Bool :=
  Nat.rec (motive := fun _ => Buffer → Bool)
    (fun _ => false) (fun _ ih => utf8ValidStep ih) fuel

/-- Model of UTF-8 validity (`str::from_utf8(l).is_ok()`). -/
def utf8Valid (l : Buffer) : Bool := utf8ValidF (l.length + 1) l

/-! ### The frame model (`RespFrame`)

Mirrors the crate's frame enum: SimpleString, SimpleError, i64, BulkString,
RespArray, RespNull, bool, f64, RespMap, RespSet.  Rust strings are carried
as UTF-8 bytes, `f64` as the text it was read from, and `RespMap`
(a `BTreeMap<String, RespFrame>`) as its sorted entry list. -/

inductive RespFrame where
  | simpleString (s : Buffer)
  | simpleError (s : Buffer)
  | integer (i : Int)
  | bulkString (b : Buffer)
  | array (items : List RespFrame)
  | null
  | boolean (b : Bool)
  | double (txt : Buffer)
  | map (entries : List (Buffer × RespFrame))
  | set (items : List RespFrame)

/-- Wire form of a null bulk string. -/
def nullBulkBytes : Buffer := [36, 45, 49, 13, 10]

/-- Wire form of a null array. -/
def nullArrayBytes : Buffer := [42, 45, 49, 13, 10]

mutual
/-- Encoder, one clause per `RespEncode` impl of the sources.  An empty
bulk string encodes to `$-1\r\n` and an empty array to `*-1\r\n`
(`bulk_string.rs` lines 56-67, `array.rs` lines 23-35).  The `double`
clause emits the carried text (float formatting is outside the embedding);
the `set` clause is modelled from the spec grammar `~<count>\r\n<items>`
(`resp/set.rs` is not under `src/`). -/
def RespFrame.encode : RespFrame → Buffer
  | .simpleString s => 43 :: s ++ CRLF
  | .simpleError s => 45 :: s ++ CRLF
  | .integer i => 58 :: intToDec i ++ CRLF
  | .bulkString b =>
    if b = [] then nullBulkBytes
    else 36 :: natToDec b.length ++ CRLF ++ b ++ CRLF
  | .array l =>
    if l.isEmpty then nullArrayBytes
    else 42 :: natToDec l.length ++ CRLF ++ RespFrame.encodeList l
  | .null => [95, 13, 10]
  | .boolean b => if b then [35, 116, 13, 10] else [35, 102, 13, 10]
  | .double t => 44 :: t ++ CRLF
  | .map m => 37 :: natToDec m.length ++ CRLF ++ RespFrame.encodePairs m
  | .set l => 126 :: natToDec l.length ++ CRLF ++ RespFrame.encodeList l

/-- Concatenated encodings of a frame list. -/
def RespFrame.encodeList : List RespFrame → Buffer
  | [] => []
  | f :: fs => f.encode ++ RespFrame.encodeList fs

/-- Concatenated encodings of map entries: each key as a SimpleString frame,
then the value (`map.rs` lines 40-50). -/
def RespFrame.encodePairs : List (Buffer × RespFrame) → Buffer
  | [] => []
  | (k, v) :: rest => (43 :: k ++ CRLF) ++ v.encode ++ RespFrame.encodePairs rest
end

mutual
/-- Well-formedness of a frame value as producible by the Rust code: text
payloads are valid UTF-8 and contain no embedded CRLF, integers fit `i64`,
lengths fit `usize`, map entries are strictly sorted by key (the `BTreeMap`
invariant), and no `double` occurs (floats are outside the embedding). -/
def RespFrame.wf : RespFrame → Bool
  | .simpleString s => utf8Valid s && !(hasCRLF s)
  | .simpleError s => utf8Valid s && !(hasCRLF s)
  | .integer i => decide (-(2 ^ 63) ≤ i) && decide (i < 2 ^ 63)
  | .bulkString b => decide (b.length < 2 ^ 64)
  | .array l => decide (l.length < 2 ^ 64) && RespFrame.wfList l
  | .null => true
  | .boolean _ => true
  | .double _ => false
  | .map m =>
    decide (m.length < 2 ^ 64) &&
      decide ((m.map Prod.fst).Pairwise (· < ·)) && RespFrame.wfPairs m
  | .set l => decide (l.length < 2 ^ 64) && RespFrame.wfList l

/-- All members of a frame list are well formed. -/
def RespFrame.wfList : List RespFrame → Bool
  | [] => true
  | f :: fs => f.wf && RespFrame.wfList fs

/-- All map entries have a valid CRLF-free UTF-8 key and a well-formed value. -/
def RespFrame.wfPairs : List (Buffer × RespFrame) → Bool
  | [] => true
  | (k, v) :: rest =>
    utf8Valid k && !(hasCRLF k) && v.wf && RespFrame.wfPairs rest
end

/-! ### Errors of the incremental codec

Modelled from the spec and the use sites in `src/resp/*.rs` (`RespError`
itself lives in the missing `resp/mod.rs`): `NotComplete` signals an
incomplete buffer, the other variants are the malformed-frame cases. -/

inductive RespError where
  | notComplete
  | invalidFrame (msg : String)
  | invalidFrameType (msg : String)
  | invalidFrameLength (len : Int)
  | parseIntError
  | parseFloatError
deriving DecidableEq

/-- Result of one incremental decode: the outcome together with the buffer
as the call leaves it (models the `&mut BytesMut` argument). -/
abbrev DecRes (α : Type) := Except RespError α × Buffer

/-! ### Incremental codec: shared helpers

`extract_fixed_data`, `extract_simple_frame_data`, `parse_length` and
`calc_total_length` live in the missing `resp/mod.rs`; they are modelled
from the spec (section 4.2) and from their use sites in the per-type
`decode`/`expect_length` impls that are under `src/`. -/

/-- Modelled from the spec: consume an expected literal; an underfull buffer
is `NotComplete`, a mismatch is a frame-type error, and the buffer is only
advanced on success. -/
def extractFixedData (buf expect : Buffer) : DecRes Unit :=
  if buf.length < expect.length then (.error .notComplete, buf)
  else if buf.take expect.length = expect then (.ok (), buf.drop expect.length)
  else (.error (.invalidFrameType "unexpected fixed data"), buf)

/-- Modelled from the spec: check the prefix byte and locate the first CRLF
terminator (searching from index 1), returning its index; fewer than three
bytes or a missing CRLF is `NotComplete`.  Does not consume. -/
def extractSimpleFrameData (buf : Buffer) (pfx : Nat) : Except RespError Nat :=
  if buf.length < 3 then .error .notComplete
  else if buf.head? ≠ some pfx then .error (.invalidFrameType "unexpected prefix")
  else
    match findCRLFsub (buf.drop 1) with
    | some i => .ok (i + 1)
    | none => .error .notComplete

/-- Modelled from the spec: read the ASCII length digits (optionally signed)
up to the first CRLF; `-1` sentinels are intercepted by the callers before
this runs, and any other negative length is malformed.  Returns the CRLF
index and the length. -/
def parseLength (buf : Buffer) (pfx : Nat) : Except RespError (Nat × Nat) :=
  match extractSimpleFrameData buf pfx with
  | .error e => .error e
  | .ok e =>
    match parseSignedDec (utf8Lossy ((buf.take e).drop 1)) with
    | none => .error .parseIntError
    | some v => if v < 0 then .error (.invalidFrameLength v) else .ok (e, v.toNat)

/-- Byte length of the next SimpleString frame (`SimpleString::expect_length`,
also used for SimpleError, i64 and f64 which share the shape). -/
def simpleExpectLength (buf : Buffer) (pfx : Nat) : Except RespError Nat :=
  match extractSimpleFrameData buf pfx with
  | .ok e => .ok (e + 2)
  | .error er => .error er

/-- Byte length of the next BulkString frame (`BulkString::expect_length`,
`bulk_string.rs` lines 86-92). -/
def bulkExpectLength (buf : Buffer) : Except RespError Nat :=
  if buf.take 5 = nullBulkBytes then .ok 5
  else
    match parseLength buf 36 with
    | .ok (e, len) => .ok (e + 2 + len + 2)
    | .error er => .error er

/-- Sum of the probed lengths of `k` consecutive sub-frames, the per-element
loop of `calc_total_length` for Array and Set (modelled from the spec:
probe each contained sub-frame without allocating it). -/
def probeElemsGen (g : Buffer → Except RespError Nat) :
    Nat → Buffer → Except RespError Nat
  | 0, _ => .ok 0
  | k + 1, s =>
    match g s with
    | .error e => .error e
    | .ok l =>
      match probeElemsGen g k (s.drop l) with
      | .error e => .error e
      | .ok t => .ok (l + t)

/-- Per-entry loop of `calc_total_length` for Map: a SimpleString key frame
followed by an arbitrary value frame (modelled from the spec). -/
def probePairsGen (g : Buffer → Except RespError Nat) :
    Nat → Buffer → Except RespError Nat
  | 0, _ => .ok 0
  | k + 1, s =>
    match simpleExpectLength s 43 with
    | .error e => .error e
    | .ok l1 =>
      match g (s.drop l1) with
      | .error e => .error e
      | .ok l2 =>
        match probePairsGen g k ((s.drop l1).drop l2) with
        | .error e => .error e
        | .ok t => .ok (l1 + l2 + t)

/-- `RespArray::expect_length` (`array.rs` lines 59-65): the `*-1\r\n` null
form, else `parse_length` and the `calc_total_length` probe of the
contents; `g` probes one contained sub-frame. -/
def arrayExpectLength (g : Buffer → Except RespError Nat) (buf : Buffer) :
    Except RespError Nat :=
  if buf.take 5 = nullArrayBytes then .ok 5
  else
    match parseLength buf 42 with
    | .error e => .error e
    | .ok (e, n) =>
      match probeElemsGen g n (buf.drop (e + 2)) with
      | .error e2 => .error e2
      | .ok t => .ok (e + 2 + t)

/-- `RespMap::expect_length` (`map.rs` lines 73-76). -/
def mapExpectLength (g : Buffer → Except RespError Nat) (buf : Buffer) :
    Except RespError Nat :=
  match parseLength buf 37 with
  | .error e => .error e
  | .ok (e, n) =>
    match probePairsGen g n (buf.drop (e + 2)) with
    | .error e2 => .error e2
    | .ok t => .ok (e + 2 + t)

/-- Modelled from the spec: `RespSet::expect_length` (`resp/set.rs` is not
under `src/`): like the array probe, without a null form. -/
def setExpectLength (g : Buffer → Except RespError Nat) (buf : Buffer) :
    Except RespError Nat :=
  match parseLength buf 126 with
  | .error e => .error e
  | .ok (e, n) =>
    match probeElemsGen g n (buf.drop (e + 2)) with
    | .error e2 => .error e2
    | .ok t => .ok (e + 2 + t)

/-- One unfolding of `RespFrame::expect_length`: dispatch on the prefix byte
to the per-type `expect_length` (modelled from the spec for the dispatcher
itself; the per-type bodies mirror the impls under `src/`). -/
def expLenStep (g : Buffer → Except RespError Nat) (buf : Buffer) :
    Except RespError Nat :=
  match buf.head? with
  | none => .error .notComplete
  | some 43 => simpleExpectLength buf 43
  | some 45 => simpleExpectLength buf 45
  | some 58 => simpleExpectLength buf 58
  | some 44 => simpleExpectLength buf 44
  | some 95 => .ok 3
  | some 35 => .ok 4
  | some 36 => bulkExpectLength buf
  | some 42 => arrayExpectLength g buf
  | some 37 => mapExpectLength g buf
  | some 126 => setExpectLength g buf
  | some _ => .error (.invalidFrameType "unknown prefix byte")

/-- Fuelled `RespFrame::expect_length`. -/
def expLenF (fuel : Nat) : Buffer → Except RespError Nat :=
  Nat.rec (motive := fun _ => Buffer → Except RespError Nat)
    (fun _ => .error .notComplete) (fun _ ih => expLenStep ih) fuel

/-- `RespFrame::expect_length`: the recursion depth of the probe is bounded
by the buffer length, so `length + 1` fuel is always sufficient. -/
def RespFrame.expectLength (buf : Buffer) : Except RespError Nat :=
  expLenF (buf.length + 1) buf

/-! ### Incremental codec: per-type decoders (non recursive types) -/

/-- `SimpleString::decode` (`simple_string.rs` lines 36-41): split off the
line and read it through `from_utf8_lossy`.  Returns the payload bytes. -/
def simpleStringDecode (buf : Buffer) : DecRes Buffer :=
  match extractSimpleFrameData buf 43 with
  | .error e => (.error e, buf)
  | .ok e => (.ok (utf8Lossy ((buf.take e).drop 1)), buf.drop (e + 2))

/-- `SimpleError::decode` (`simple_error.rs` lines 38-43). -/
def simpleErrorDecode (buf : Buffer) : DecRes Buffer :=
  match extractSimpleFrameData buf 45 with
  | .error e => (.error e, buf)
  | .ok e => (.ok (utf8Lossy ((buf.take e).drop 1)), buf.drop (e + 2))

/-- `i64::decode` (`integer.rs` lines 15-20): the line is split off before
the parse, so a parse failure leaves the buffer already advanced. -/
def integerDecode (buf : Buffer) : DecRes Int :=
  match extractSimpleFrameData buf 58 with
  | .error e => (.error e, buf)
  | .ok e =>
    match rustParseI64 (utf8Lossy ((buf.take e).drop 1)) with
    | some v => (.ok v, buf.drop (e + 2))
    | none => (.error .parseIntError, buf.drop (e + 2))

/-- Lowercase an ASCII byte (`u8::to_ascii_lowercase`). -/
def asciiLowerByte (b : Nat) : Nat := if 65 ≤ b && b ≤ 90 then b + 32 else b

/-- Exponent tail of a float text: empty, or `e`/`E`, an optional sign and
at least one digit. -/
def floatExpTail (t : Buffer) : Bool :=
  match t with
  | [] => true
  | e :: rest =>
    if e = 101 || e = 69 then
      let rest2 := match rest with
        | 43 :: r => r
        | 45 :: r => r
        | _ => rest
      !rest2.isEmpty && rest2.all isDigitByte
    else false

/-- Does a byte text parse as a Rust `f64` (`f64::from_str`)?  Optional
sign, then `inf`/`infinity`/`nan` (ASCII case-insensitive) or a decimal
mantissa (`digits[.digits?]` or `.digits`) with an optional exponent. -/
def rustFloatSyntax (l : Buffer) : Bool :=
  let body := match l with
    | 43 :: rest => rest
    | 45 :: rest => rest
    | _ => l
  let lowered := body.map asciiLowerByte
  if lowered = [105, 110, 102] || lowered = [105, 110, 102, 105, 110, 105, 116, 121]
      || lowered = [110, 97, 110] then true
  else
    let ds := body.takeWhile isDigitByte
    match body.drop ds.length with
    | 46 :: frac =>
      let fs := frac.takeWhile isDigitByte
      (!ds.isEmpty || !fs.isEmpty) && floatExpTail (frac.drop fs.length)
    | rest1 => !ds.isEmpty && floatExpTail rest1

/-- `f64::decode` (`double.rs` lines 24-29): split the line, lossy-read it,
parse as `f64`.  The value is carried as its lossy text. -/
def doubleDecode (buf : Buffer) : DecRes Buffer :=
  match extractSimpleFrameData buf 44 with
  | .error e => (.error e, buf)
  | .ok e =>
    let txt := utf8Lossy ((buf.take e).drop 1)
    if rustFloatSyntax txt then (.ok txt, buf.drop (e + 2))
    else (.error .parseFloatError, buf.drop (e + 2))

/-- `bool::decode` (`bool.rs` lines 14-23): try `#t\r\n`, on `NotComplete`
give up, on any other failure try `#f\r\n`. -/
def boolDecode (buf : Buffer) : DecRes Bool :=
  match extractFixedData buf [35, 116, 13, 10] with
  | (.ok _, b2) => (.ok true, b2)
  | (.error .notComplete, _) => (.error .notComplete, buf)
  | (.error _, _) =>
    match extractFixedData buf [35, 102, 13, 10] with
    | (.ok _, b2) => (.ok false, b2)
    | (.error e, _) => (.error e, buf)

/-- `RespNull::decode` (`null.rs` lines 17-20). -/
def nullDecode (buf : Buffer) : DecRes Unit :=
  match extractFixedData buf [95, 13, 10] with
  | (.ok _, b2) => (.ok (), b2)
  | (.error e, _) => (.error e, buf)

/-- `BulkString::decode` (`bulk_string.rs` lines 71-85): the `$-1\r\n` null
form first (its failure kind is discarded by `.is_ok()`), then the length
header, a completeness check before any consumption, and the payload. -/
def bulkStringDecode (buf : Buffer) : DecRes Buffer :=
  match extractFixedData buf nullBulkBytes with
  | (.ok _, b2) => (.ok [], b2)
  | (.error _, _) =>
    match parseLength buf 36 with
    | .error e => (.error e, buf)
    | .ok (e, len) =>
      let remained := buf.drop (e + 2)
      if remained.length < len + 2 then (.error .notComplete, buf)
      else (.ok (remained.take len), buf.drop (e + 2 + len + 2))

/-! ### Incremental codec: the recursive decoder -/

/-- Element loop of `RespArray::decode` (`array.rs` lines 52-55) and, modelled
from the spec, of `RespSet::decode`: decode `k` consecutive frames. -/
def decodeElemsGen (g : Buffer → DecRes RespFrame) :
    Nat → Buffer → DecRes (List RespFrame)
  | 0, buf => (.ok [], buf)
  | k + 1, buf =>
    match g buf with
    | (.error e, b2) => (.error e, b2)
    | (.ok f, b2) =>
      match decodeElemsGen g k b2 with
      | (.error e, b3) => (.error e, b3)
      | (.ok fs, b3) => (.ok (f :: fs), b3)

/-- Ordered insertion into the sorted entry list modelling `BTreeMap::insert`
(equal keys replace the value). -/
def btreeInsert (k : Buffer) (v : RespFrame) :
    List (Buffer × RespFrame) → List (Buffer × RespFrame)
  | [] => [(k, v)]
  | (k1, v1) :: rest =>
    if k < k1 then (k, v) :: (k1, v1) :: rest
    else if k = k1 then (k, v) :: rest
    else (k1, v1) :: btreeInsert k v rest

/-- Entry loop of `RespMap::decode` (`map.rs` lines 64-69): a SimpleString
key then a value frame, inserted into the map. -/
def decodeMapGen (g : Buffer → DecRes RespFrame) :
    Nat → List (Buffer × RespFrame) → Buffer → DecRes (List (Buffer × RespFrame))
  | 0, acc, buf => (.ok acc, buf)
  | k + 1, acc, buf =>
    match simpleStringDecode buf with
    | (.error e, b2) => (.error e, b2)
    | (.ok key, b2) =>
      match g b2 with
      | (.error e, b3) => (.error e, b3)
      | (.ok v, b3) => decodeMapGen g k (btreeInsert key v acc) b3

/-- `RespArray::decode` (`array.rs` lines 39-58): the `*-1\r\n` null form
first, then the header, the `calc_total_length` probe (`gE` probes one
sub-frame), a completeness check before any consumption, and only then the
element loop (`g` decodes one nested frame). -/
def arrayDecode (gE : Buffer → Except RespError Nat)
    (g : Buffer → DecRes RespFrame) (buf : Buffer) : DecRes RespFrame :=
  match extractFixedData buf nullArrayBytes with
  | (.ok _, b2) => (.ok (.array []), b2)
  | (.error _, _) =>
    match parseLength buf 42 with
    | .error e => (.error e, buf)
    | .ok (e, n) =>
      match probeElemsGen gE n (buf.drop (e + 2)) with
      | .error e2 => (.error e2, buf)
      | .ok t =>
        if buf.length < e + 2 + t then (.error .notComplete, buf)
        else
          match decodeElemsGen g n (buf.drop (e + 2)) with
          | (.ok items, b3) => (.ok (.array items), b3)
          | (.error er, b3) => (.error er, b3)

/-- `RespMap::decode` (`map.rs` lines 54-72): header, probe, completeness
check, then the key/value loop. -/
def mapDecode (gE : Buffer → Except RespError Nat)
    (g : Buffer → DecRes RespFrame) (buf : Buffer) : DecRes RespFrame :=
  match parseLength buf 37 with
  | .error e => (.error e, buf)
  | .ok (e, n) =>
    match probePairsGen gE n (buf.drop (e + 2)) with
    | .error e2 => (.error e2, buf)
    | .ok t =>
      if buf.length < e + 2 + t then (.error .notComplete, buf)
      else
        match decodeMapGen g n [] (buf.drop (e + 2)) with
        | (.ok entries, b3) => (.ok (.map entries), b3)
        | (.error er, b3) => (.error er, b3)

/-- Modelled from the spec: `RespSet::decode` (`resp/set.rs` is not under
`src/`): the spec requires the same probe-the-total-length-first shape as
Array and Map (section 4.2). -/
def setDecode (gE : Buffer → Except RespError Nat)
    (g : Buffer → DecRes RespFrame) (buf : Buffer) : DecRes RespFrame :=
  match parseLength buf 126 with
  | .error e => (.error e, buf)
  | .ok (e, n) =>
    match probeElemsGen gE n (buf.drop (e + 2)) with
    | .error e2 => (.error e2, buf)
    | .ok t =>
      if buf.length < e + 2 + t then (.error .notComplete, buf)
      else
        match decodeElemsGen g n (buf.drop (e + 2)) with
        | (.ok items, b3) => (.ok (.set items), b3)
        | (.error er, b3) => (.error er, b3)

/-- One unfolding of `RespFrame::decode`: dispatch on the prefix byte
(dispatcher modelled from the spec; `resp/mod.rs` is not under `src/`). -/
def decodeStep (gE : Buffer → Except RespError Nat)
    (g : Buffer → DecRes RespFrame) (buf : Buffer) : DecRes RespFrame :=
  match buf.head? with
  | none => (.error .notComplete, buf)
  | some 43 =>
    match simpleStringDecode buf with
    | (.ok s, b2) => (.ok (.simpleString s), b2)
    | (.error e, b2) => (.error e, b2)
  | some 45 =>
    match simpleErrorDecode buf with
    | (.ok s, b2) => (.ok (.simpleError s), b2)
    | (.error e, b2) => (.error e, b2)
  | some 58 =>
    match integerDecode buf with
    | (.ok i, b2) => (.ok (.integer i), b2)
    | (.error e, b2) => (.error e, b2)
  | some 44 =>
    match doubleDecode buf with
    | (.ok t, b2) => (.ok (.double t), b2)
    | (.error e, b2) => (.error e, b2)
  | some 95 =>
    match nullDecode buf with
    | (.ok _, b2) => (.ok .null, b2)
    | (.error e, b2) => (.error e, b2)
  | some 35 =>
    match boolDecode buf with
    | (.ok b, b2) => (.ok (.boolean b), b2)
    | (.error e, b2) => (.error e, b2)
  | some 36 =>
    match bulkStringDecode buf with
    | (.ok b, b2) => (.ok (.bulkString b), b2)
    | (.error e, b2) => (.error e, b2)
  | some 42 => arrayDecode gE g buf
  | some 37 => mapDecode gE g buf
  | some 126 => setDecode gE g buf
  | some _ => (.error (.invalidFrameType "unknown prefix byte"), buf)

/-- Fuelled `RespFrame::decode`; the probe at level `n + 1` runs with the
same fuel `n` as the nested decodes, mirroring that both recursions descend
the same grammar. -/
def decodeF (fuel : Nat) : Buffer → DecRes RespFrame :=
  Nat.rec (motive := fun _ => Buffer → DecRes RespFrame)
    (fun buf => (.error .notComplete, buf))
    (fun n ih => decodeStep (expLenF n) ih) fuel

/-- `RespFrame::decode`: nesting depth is bounded by the buffer length, so
`length + 1` fuel is always sufficient. -/
def RespFrame.decode (buf : Buffer) : DecRes RespFrame :=
  decodeF (buf.length + 1) buf

/-! ### Batch codec (`src/respv2/parse.rs`, `src/respv2/mod.rs`)

Phase 1 (`parse_frame_length` / `advance`) walks the grammar to compute the
byte span of the next frame; phase 2 (`parse_frame`) re-walks the span
building frames.  The winnow combinators are modelled directly:
`take_until(0.., CRLF)` finds the first literal `\r\n`, `take_till(0.., CRLF)`
consumes bytes until the first CR *or* LF byte (a byte set, never failing),
`digit1` takes one or more ASCII digits, and parser failure is `none`
(winnow `ContextError` carries no data the code inspects). -/

namespace RespV2

/-- `terminated(take_until(0.., CRLF), CRLF).value(())`: advance past the
first literal CRLF. -/
def simpleAdvance (rest : Buffer) : Option Buffer :=
  (findCRLFsub rest).map (fun i => rest.drop (i + 2))

/-- `fn integer` (`parse.rs` lines 121-126): optional sign, then
`digit1.parse_to::<i64>()` and CRLF; the sign is applied after the parse. -/
def v2Integer (buf : Buffer) : Option (Int × Buffer) :=
  let sr : Int × Buffer := match buf with
    | 43 :: r => (1, r)
    | 45 :: r => (-1, r)
    | _ => (1, buf)
  let ds := sr.2.takeWhile isDigitByte
  if ds.isEmpty then none
  else
    match parseDigitsBounded (2 ^ 63 - 1) ds with
    | none => none
    | some d =>
      match sr.2.drop ds.length with
      | 13 :: 10 :: r2 => some (sr.1 * (d : Int), r2)
      | _ => none

/-- `terminated(digit1.parse_to::<i64>(), CRLF)` (no sign accepted), the
length header parser of phase 2. -/
def v2DigitsI64 (buf : Buffer) : Option (Int × Buffer) :=
  let ds := buf.takeWhile isDigitByte
  if ds.isEmpty then none
  else
    match parseDigitsBounded (2 ^ 63 - 1) ds with
    | none => none
    | some d =>
      match buf.drop ds.length with
      | 13 :: 10 :: r2 => some ((d : Int), r2)
      | _ => none

/-- `fn bulk_string_advance` (`parse.rs` lines 49-58). -/
def bulkStringAdvance (rest : Buffer) : Option Buffer :=
  match v2Integer rest with
  | none => none
  | some (len, r2) =>
    if len = -1 || len = 0 then some r2
    else if len < 0 then none
    else if r2.length < len.toNat then none
    else
      match r2.drop len.toNat with
      | 13 :: 10 :: r3 => some r3
      | _ => none

/-- Run `g` a fixed number of times threading the buffer
(the `for _ in 0..len` loops of the advance functions). -/
def loopAdvance (g : Buffer → Option Buffer) : Nat → Buffer → Option Buffer
  | 0, b => some b
  | k + 1, b =>
    match g b with
    | some b2 => loopAdvance g k b2
    | none => none

/-- `fn array_advance` (`parse.rs` lines 60-69); a length below `-1` is not
rejected: the `for` loop over `0..len` is simply empty. -/
def arrayAdvance (g : Buffer → Option Buffer) (rest : Buffer) : Option Buffer :=
  match v2Integer rest with
  | none => none
  | some (len, r2) =>
    if len = -1 || len = 0 then some r2
    else loopAdvance g len.toNat r2

/-- `fn set_advance` (`parse.rs` lines 85-94): walks `len` element frames. -/
def setAdvance (g : Buffer → Option Buffer) (rest : Buffer) : Option Buffer :=
  match v2Integer rest with
  | none => none
  | some (len, r2) =>
    if len = -1 || len = 0 then some r2
    else loopAdvance g len.toNat r2

/-- One entry of `fn map_advance`: `take_till(0.., CRLF)` (stops at the
first CR or LF byte), the CRLF, then a value frame. -/
def mapEntryAdvance (g : Buffer → Option Buffer) (b : Buffer) : Option Buffer :=
  match b.dropWhile (fun x => x ≠ 13 && x ≠ 10) with
  | 13 :: 10 :: r2 => g r2
  | _ => none

/-- `fn map_advance` (`parse.rs` lines 71-83). -/
def mapAdvance (g : Buffer → Option Buffer) (rest : Buffer) : Option Buffer :=
  match v2Integer rest with
  | none => none
  | some (len, r2) =>
    if len = -1 || len = 0 then some r2
    else loopAdvance (mapEntryAdvance g) len.toNat r2

/-- One unfolding of `fn advance` (`parse.rs` lines 31-47): `any` takes the
prefix byte, then dispatch. -/
def advStep (g : Buffer → Option Buffer) (buf : Buffer) : Option Buffer :=
  match buf with
  | [] => none
  | b :: rest =>
    match b with
    | 43 | 45 | 58 | 95 | 35 | 44 => simpleAdvance rest
    | 36 => bulkStringAdvance rest
    | 42 => arrayAdvance g rest
    | 37 => mapAdvance g rest
    | 126 => setAdvance g rest
    | _ => none

/-- Fuelled `fn advance`. -/
def advanceF (fuel : Nat) : Buffer → Option Buffer :=
  Nat.rec (motive := fun _ => Buffer → Option Buffer)
    (fun _ => none) (fun _ ih => advStep ih) fuel

/-- `pub fn parse_frame_length` (`parse.rs` lines 17-29): run `advance` and
report the span as the pointer difference; any failure collapses to
`NotComplete`. -/
def parseFrameLength (input : Buffer) : Except RespError Nat :=
  match advanceF (input.length + 1) input with
  | some rem => .ok (input.length - rem.length)
  | none => .error .notComplete

/-- `fn parse_string` (`parse.rs` lines 188-192): `take_till(0.., CRLF)`,
the CRLF, and a lossy UTF-8 read. -/
def parseStringV2 (buf : Buffer) : Option (Buffer × Buffer) :=
  let s := buf.takeWhile (fun x => x ≠ 13 && x ≠ 10)
  match buf.drop s.length with
  | 13 :: 10 :: r => some (utf8Lossy s, r)
  | _ => none

/-- Length of the float text recognized by winnow's `ascii::float`:
optional sign, then a case-insensitive `infinity`/`inf`/`nan` or a decimal
mantissa, then an optional exponent whose digits are mandatory once the
`e`/`E` is seen (winnow cuts there). -/
def winnowFloatLen (buf : Buffer) : Option Nat :=
  let s0 : Nat := match buf with
    | 43 :: _ => 1
    | 45 :: _ => 1
    | _ => 0
  let body := buf.drop s0
  let low8 := (body.take 8).map asciiLowerByte
  if low8 = [105, 110, 102, 105, 110, 105, 116, 121] then some (s0 + 8)
  else if low8.take 3 = [105, 110, 102] then some (s0 + 3)
  else if low8.take 3 = [110, 97, 110] then some (s0 + 3)
  else
    let ds := body.takeWhile isDigitByte
    let mlen : Option Nat :=
      if ds.isEmpty then
        match body with
        | 46 :: f =>
          let fs := f.takeWhile isDigitByte
          if fs.isEmpty then none else some (1 + fs.length)
        | _ => none
      else
        match body.drop ds.length with
        | 46 :: f => some (ds.length + 1 + (f.takeWhile isDigitByte).length)
        | _ => some ds.length
    match mlen with
    | none => none
    | some m =>
      match body.drop m with
      | e :: r =>
        if e = 101 || e = 69 then
          let s1 : Nat := match r with
            | 43 :: _ => 1
            | 45 :: _ => 1
            | _ => 0
          let es := (r.drop s1).takeWhile isDigitByte
          if es.isEmpty then none else some (s0 + m + 1 + s1 + es.length)
        else some (s0 + m)
      | [] => some (s0 + m)

/-- `fn double` (`parse.rs` lines 161-163): `terminated(float, CRLF)`; the
recognized text is kept as the value. -/
def v2Double (rest : Buffer) : Option (RespFrame × Buffer) :=
  match winnowFloatLen rest with
  | none => none
  | some m =>
    match rest.drop m with
    | 13 :: 10 :: r => some (.double (rest.take m), r)
    | _ => none

/-- `fn bulk_string` (`parse.rs` lines 128-136): unsigned digits only, so
the `len == -1` null branch is kept but unreachable. -/
def v2BulkString (rest : Buffer) : Option (RespFrame × Buffer) :=
  match v2DigitsI64 rest with
  | none => none
  | some (len, r2) =>
    if len = -1 then some (.bulkString [], r2)
    else if r2.length < len.toNat then none
    else
      match r2.drop len.toNat with
      | 13 :: 10 :: r3 => some (.bulkString (r2.take len.toNat), r3)
      | _ => none

/-- Element loop of `fn array` and `fn set`. -/
def parseItems (g : Buffer → Option (RespFrame × Buffer)) :
    Nat → Buffer → Option (List RespFrame × Buffer)
  | 0, b => some ([], b)
  | k + 1, b =>
    match g b with
    | none => none
    | some (f, b2) =>
      match parseItems g k b2 with
      | none => none
      | some (fs, b3) => some (f :: fs, b3)

/-- `fn array` (`parse.rs` lines 138-149); the `len == -1` branch is again
unreachable behind `digit1`. -/
def v2Array (g : Buffer → Option (RespFrame × Buffer)) (rest : Buffer) :
    Option (RespFrame × Buffer) :=
  match v2DigitsI64 rest with
  | none => none
  | some (len, r2) =>
    if len = -1 then some (.array [], r2)
    else
      match parseItems g len.toNat r2 with
      | none => none
      | some (items, r3) => some (.array items, r3)

/-- Entry loop of `fn map`: `preceded('+', parse_string)` then a value
frame, inserted into the `RespMap`. -/
def v2MapLoop (g : Buffer → Option (RespFrame × Buffer)) :
    Nat → List (Buffer × RespFrame) → Buffer →
      Option (List (Buffer × RespFrame) × Buffer)
  | 0, acc, b => some (acc, b)
  | k + 1, acc, b =>
    match b with
    | 43 :: b1 =>
      match parseStringV2 b1 with
      | none => none
      | some (key, b2) =>
        match g b2 with
        | none => none
        | some (v, b3) => v2MapLoop g k (btreeInsert key v acc) b3
    | _ => none

/-- `fn map` (`parse.rs` lines 165-175). -/
def v2Map (g : Buffer → Option (RespFrame × Buffer)) (rest : Buffer) :
    Option (RespFrame × Buffer) :=
  match v2DigitsI64 rest with
  | none => none
  | some (len, r2) =>
    match v2MapLoop g len.toNat [] r2 with
    | none => none
    | some (entries, r3) => some (.map entries, r3)

/-- `fn set` (`parse.rs` lines 177-186): the declared item count is halved
(`let len = len / 2;`) before the element loop. -/
def v2Set (g : Buffer → Option (RespFrame × Buffer)) (rest : Buffer) :
    Option (RespFrame × Buffer) :=
  match v2DigitsI64 rest with
  | none => none
  | some (len, r2) =>
    match parseItems g (len.toNat / 2) r2 with
    | none => none
    | some (items, r3) => some (.set items, r3)

/-- One unfolding of `pub fn parse_frame` (`parse.rs` lines 96-111). -/
def pfStep (g : Buffer → Option (RespFrame × Buffer)) (buf : Buffer) :
    Option (RespFrame × Buffer) :=
  match buf with
  | [] => none
  | b :: rest =>
    match b with
    | 43 => (parseStringV2 rest).map (fun p => (.simpleString p.1, p.2))
    | 45 => (parseStringV2 rest).map (fun p => (.simpleError p.1, p.2))
    | 58 => (v2Integer rest).map (fun p => (.integer p.1, p.2))
    | 36 => v2BulkString rest
    | 42 => v2Array g rest
    | 95 =>
      match rest with
      | 13 :: 10 :: r => some (.null, r)
      | _ => none
    | 35 =>
      match rest with
      | 116 :: 13 :: 10 :: r => some (.boolean true, r)
      | 102 :: 13 :: 10 :: r => some (.boolean false, r)
      | _ => none
    | 44 => v2Double rest
    | 37 => v2Map g rest
    | 126 => v2Set g rest
    | _ => none

/-- Fuelled `parse_frame`. -/
def parseFrameF (fuel : Nat) : Buffer → Option (RespFrame × Buffer) :=
  Nat.rec (motive := fun _ => Buffer → Option (RespFrame × Buffer))
    (fun _ => none) (fun _ ih => pfStep ih) fuel

/-- `pub fn parse_frame`: nesting depth is bounded by the input length. -/
def parseFrame (buf : Buffer) : Option (RespFrame × Buffer) :=
  parseFrameF (buf.length + 1) buf

/-- `RespDecodeV2::decode` (`respv2/mod.rs` lines 15-19): probe the span,
split it off (the buffer advances whether or not phase 2 succeeds), parse
the split-off bytes and discard their leftover. -/
def decodeV2 (buf : Buffer) : Except RespError RespFrame × Buffer :=
  match parseFrameLength buf with
  | .error e => (.error e, buf)
  | .ok n =>
    match parseFrameF ((buf.take n).length + 1) (buf.take n) with
    | some (f, _) => (.ok f, buf.drop n)
    | none => (.error (.invalidFrame "invalid frame"), buf.drop n)

end RespV2

/-! ### Command layer (`src/cmd/mod.rs`, `src/cmd/echo.rs`, `src/cmd/hmap.rs`,
`src/cmd/set.rs`; `cmd/map.rs` with the Get/Set parsers is not under `src/`
and is modelled from the spec) -/

/-- `CommandError` (`cmd/mod.rs` lines 18-29). -/
inductive CommandError where
  | invalidCommand (msg : String)
  | invalidArgument (msg : String)
  | respError (e : RespError)
  | utf8Error
deriving DecidableEq

/-- The typed commands (`cmd/mod.rs` lines 36-111).  Rust `String` fields
are carried as UTF-8 byte sequences. -/
inductive Command where
  | get (key : Buffer)
  | set (key : Buffer) (value : RespFrame)
  | hGet (key field : Buffer)
  | hMGet (key : Buffer) (fields : List Buffer)
  | hSet (key field : Buffer) (value : RespFrame)
  | hGetAll (key : Buffer) (sort : Bool)
  | unrecognized
  | echo (message : Buffer)
  | sisMember (key member : Buffer)
  | addMember (key member : Buffer)

/-- `String::from_utf8(bytes)`: succeeds exactly on valid UTF-8; failures
propagate as `CommandError::Utf8Error`. -/
def stringFromUtf8 (b : Buffer) : Except CommandError Buffer :=
  if utf8Valid b then .ok b else .error .utf8Error

/-- Lowercase a byte string (`to_ascii_lowercase`). -/
def lowerBytes (b : Buffer) : Buffer := b.map asciiLowerByte

/-- Name-token loop of `fn validate_command` (`cmd/mod.rs` lines 162-179):
each expected literal must match the corresponding frame, a BulkString
compared after ASCII-lowercasing. -/
def validateNames : List RespFrame → List Buffer → Except CommandError Unit
  | _, [] => .ok ()
  | [], _ :: _ => .error (.invalidCommand "missing name token")
  | f :: fs, c :: cs =>
    match f with
    | .bulkString fv =>
      if lowerBytes fv ≠ c then .error (.invalidCommand "unexpected name token")
      else validateNames fs cs
    | _ => .error (.invalidCommand "name token must be a BulkString")

/-- `fn validate_command` (`cmd/mod.rs` lines 150-181): an arity check then
the name-token loop. -/
def validateCommand (frames : List RespFrame) (cmds : List Buffer)
    (argCnt : Nat) : Except CommandError Unit :=
  if frames.length < cmds.length + argCnt then
    .error (.invalidCommand "too few arguments")
  else validateNames frames cmds

/-- `fn extract_args` (`cmd/mod.rs` lines 183-185). -/
def extractArgs (frames : List RespFrame) (start : Nat) : List RespFrame :=
  frames.drop start

/-- The command-name byte literals of the dispatch table. -/
def echoName : Buffer := [101, 99, 104, 111]

/-- Byte literal `get`. -/
def getName : Buffer := [103, 101, 116]

/-- Byte literal `set`. -/
def setName : Buffer := [115, 101, 116]

/-- Byte literal `hget`. -/
def hgetName : Buffer := [104, 103, 101, 116]

/-- Byte literal `hmget`. -/
def hmgetName : Buffer := [104, 109, 103, 101, 116]

/-- Byte literal `hset`. -/
def hsetName : Buffer := [104, 115, 101, 116]

/-- Byte literal `hgetall`. -/
def hgetallName : Buffer := [104, 103, 101, 116, 97, 108, 108]

/-- Byte literal `addmember`. -/
def addmemberName : Buffer := [97, 100, 100, 109, 101, 109, 98, 101, 114]

/-- Byte literal `sismember`. -/
def sismemberName : Buffer := [115, 105, 115, 109, 101, 109, 98, 101, 114]

/-- `TryFrom<RespArray> for Echo` (`cmd/echo.rs` lines 11-25). -/
def echoTryFrom (value : List RespFrame) : Except CommandError Command :=
  match validateCommand value [echoName] 1 with
  | .error e => .error e
  | .ok _ =>
    match extractArgs value 1 with
    | .bulkString key :: _ =>
      match stringFromUtf8 key with
      | .ok m => .ok (.echo m)
      | .error e => .error e
    | _ => .error (.invalidCommand "Invalid command")

/-- Modelled from the spec: `TryFrom<RespArray> for Get` (`cmd/map.rs` is
not under `src/`): validate the `get` literal, then one BulkString key
decoded as UTF-8. -/
def getTryFrom (value : List RespFrame) : Except CommandError Command :=
  match validateCommand value [getName] 1 with
  | .error e => .error e
  | .ok _ =>
    match extractArgs value 1 with
    | .bulkString key :: _ =>
      match stringFromUtf8 key with
      | .ok k => .ok (.get k)
      | .error e => .error e
    | _ => .error (.invalidArgument "Invalid key")

/-- Modelled from the spec: `TryFrom<RespArray> for Set`: a BulkString key
and a raw value frame kept as-is. -/
def setTryFrom (value : List RespFrame) : Except CommandError Command :=
  match validateCommand value [setName] 2 with
  | .error e => .error e
  | .ok _ =>
    match extractArgs value 1 with
    | .bulkString key :: v :: _ =>
      match stringFromUtf8 key with
      | .ok k => .ok (.set k v)
      | .error e => .error e
    | _ => .error (.invalidArgument "Invalid key or value")

/-- `TryFrom<RespArray> for HGet` (`cmd/hmap.rs` lines 55-72). -/
def hGetTryFrom (value : List RespFrame) : Except CommandError Command :=
  match validateCommand value [hgetName] 2 with
  | .error e => .error e
  | .ok _ =>
    match extractArgs value 1 with
    | .bulkString key :: .bulkString field :: _ =>
      match stringFromUtf8 key with
      | .error e => .error e
      | .ok k =>
        match stringFromUtf8 field with
        | .error e => .error e
        | .ok f => .ok (.hGet k f)
    | _ => .error (.invalidArgument "Invalid key or field")

/-- `fn parse_string_arg` (`cmd/hmap.rs` lines 98-106). -/
def parseStringArg (frame : RespFrame) : Except CommandError Buffer :=
  match frame with
  | .bulkString bytes => stringFromUtf8 bytes
  | _ => .error (.invalidArgument "Invalid argument")

/-- Trailing-field loop of `HMGet::try_from`: every element through
`parse_string_arg`, failing on the first error. -/
def parseStringArgs : List RespFrame → Except CommandError (List Buffer)
  | [] => .ok []
  | f :: fs =>
    match parseStringArg f with
    | .error e => .error e
    | .ok s =>
      match parseStringArgs fs with
      | .error e => .error e
      | .ok ss => .ok (s :: ss)

/-- `TryFrom<RespArray> for HMGet` (`cmd/hmap.rs` lines 74-95). -/
def hMGetTryFrom (value : List RespFrame) : Except CommandError Command :=
  match validateCommand value [hmgetName] 2 with
  | .error e => .error e
  | .ok _ =>
    let args := extractArgs value 1
    if args.length < 2 then .error (.invalidArgument "too few arguments")
    else
      match args with
      | keyFrame :: rest =>
        match parseStringArg keyFrame with
        | .error e => .error e
        | .ok k =>
          match parseStringArgs rest with
          | .error e => .error e
          | .ok fields => .ok (.hMGet k fields)
      | [] => .error (.invalidArgument "too few arguments")

/-- `TryFrom<RespArray> for HSet` (`cmd/hmap.rs` lines 124-144). -/
def hSetTryFrom (value : List RespFrame) : Except CommandError Command :=
  match validateCommand value [hsetName] 3 with
  | .error e => .error e
  | .ok _ =>
    match extractArgs value 1 with
    | .bulkString key :: .bulkString field :: v :: _ =>
      match stringFromUtf8 key with
      | .error e => .error e
      | .ok k =>
        match stringFromUtf8 field with
        | .error e => .error e
        | .ok f => .ok (.hSet k f v)
    | _ => .error (.invalidArgument "Invalid key or field")

/-- `TryFrom<RespArray> for HGetAll` (`cmd/hmap.rs` lines 108-122): the
`sort` flag is always set to `false`. -/
def hGetAllTryFrom (value : List RespFrame) : Except CommandError Command :=
  match validateCommand value [hgetallName] 1 with
  | .error e => .error e
  | .ok _ =>
    match extractArgs value 1 with
    | .bulkString key :: _ =>
      match stringFromUtf8 key with
      | .ok k => .ok (.hGetAll k false)
      | .error e => .error e
    | _ => .error (.invalidArgument "Invalid key")

/-- `TryFrom<RespArray> for AddMember` (`cmd/set.rs` lines 18-35). -/
def addMemberTryFrom (value : List RespFrame) : Except CommandError Command :=
  match validateCommand value [addmemberName] 2 with
  | .error e => .error e
  | .ok _ =>
    match extractArgs value 1 with
    | .bulkString key :: .bulkString member :: _ =>
      match stringFromUtf8 key with
      | .error e => .error e
      | .ok k =>
        match stringFromUtf8 member with
        | .error e => .error e
        | .ok m => .ok (.addMember k m)
    | _ => .error (.invalidCommand "Invalid command")

/-- `TryFrom<RespArray> for SisMember` (`cmd/set.rs` lines 37-54). -/
def sisMemberTryFrom (value : List RespFrame) : Except CommandError Command :=
  match validateCommand value [sismemberName] 2 with
  | .error e => .error e
  | .ok _ =>
    match extractArgs value 1 with
    | .bulkString key :: .bulkString member :: _ =>
      match stringFromUtf8 key with
      | .error e => .error e
      | .ok k =>
        match stringFromUtf8 member with
        | .error e => .error e
        | .ok m => .ok (.sisMember k m)
    | _ => .error (.invalidCommand "Invalid command")

/-- `TryFrom<RespArray> for Command` (`cmd/mod.rs` lines 126-148): the first
element must be a BulkString, whose raw bytes are matched against the
lowercase name literals; anything else succeeds as `Unrecognized`. -/
def commandTryFrom (value : List RespFrame) : Except CommandError Command :=
  match value.head? with
  | some (.bulkString cmd) =>
    if cmd = echoName then echoTryFrom value
    else if cmd = getName then getTryFrom value
    else if cmd = setName then setTryFrom value
    else if cmd = hgetName then hGetTryFrom value
    else if cmd = hmgetName then hMGetTryFrom value
    else if cmd = hsetName then hSetTryFrom value
    else if cmd = hgetallName then hGetAllTryFrom value
    else if cmd = addmemberName then addMemberTryFrom value
    else if cmd = sismemberName then sisMemberTryFrom value
    else .ok .unrecognized
  | _ => .error (.invalidCommand "Command must have a BulkString as the first argument")

/-! ### Executors touching the backend

The backend store (`backend/*.rs`) is not under `src/`; per the spec it is
a per-key concurrent map.  A snapshot of the hash table entry for one key
is modelled as an optional association list (the iteration order of the
inner `DashMap` is implementation defined, hence arbitrary here). -/

/-- Flatten field/value pairs into the alternating frame list
(`flat_map(|(k, v)| vec![BulkString::from(k).into(), v])`). -/
def flattenPairs (l : List (Buffer × RespFrame)) : List RespFrame :=
  (l.map (fun p => [RespFrame.bulkString p.1, p.2])).flatten

/-- The comparator `|a, b| a.0.cmp(&b.0)` of the `sort_by` call in
`HGetAll::execute`: compare entries by their field name under the
lexicographic byte order. -/
def keyLe (a b : Buffer × RespFrame) : Bool := decide (a.1 ≤ b.1)

/-- `CommandExecutor for HGetAll` (`cmd/hmap.rs` lines 22-46): snapshot the
key's fields, sort by field name when `sort` is set (`sort_by` on `String`
is a stable sort under the lexicographic byte order), flatten; a missing
key yields an empty array. -/
def hGetAllExecute (snapshot : Option (List (Buffer × RespFrame)))
    (doSort : Bool) : RespFrame :=
  match snapshot with
  | some l =>
    let data := if doSort then l.mergeSort keyLe else l
    .array (flattenPairs data)
  | none => .array []

/-- Modelled from the spec: `Backend::sis_member` (`backend/*` is not under
`src/`): the spec records that the current behavior always returns
`Integer 1` regardless of the set contents (section 9, open question 1).
The arguments mirror the call `backend.sis_member(self.key, self.member)`
against a set table modelled as an association list. -/
def backendSisMember (_sets : List (Buffer × List Buffer))
    (_key _member : Buffer) : RespFrame :=
  RespFrame.integer 1

/-- `CommandExecutor for SisMember` (`cmd/set.rs` lines 12-16): delegate to
the backend. -/
def sisMemberExecute (sets : List (Buffer × List Buffer))
    (key member : Buffer) : RespFrame :=
  backendSisMember sets key member

/-! ## Lemmas

Basic facts about the byte-level helpers, then the two agreement chains of
the incremental codec (probe vs decode, and decode-of-encode), then the
claim theorems. -/

/-! ### Decimal digits -/

theorem digitsVal_append (l : Buffer) (d : Nat) :
    digitsVal (l ++ [d]) = digitsVal l * 10 + (d - 48) := by
  simp [digitsVal]

theorem foldl_digits_reverse (ds : List Nat) (a : Nat) :
    List.foldl (fun x b => x * 10 + (b - 48)) a ((ds.map (fun d => d + 48)).reverse)
      = a * 10 ^ ds.length + Nat.ofDigits 10 ds := by
  induction ds generalizing a with
  | nil => simp [Nat.ofDigits]
  | cons d t ih =>
    have h1 : ((d :: t).map (fun d => d + 48)).reverse
        = (t.map (fun d => d + 48)).reverse ++ [d + 48] := by simp
    rw [h1, List.foldl_append, ih]
    simp [Nat.ofDigits_cons, pow_succ]
    ring

theorem digitsVal_natToDec (n : Nat) : digitsVal (natToDec n) = n := by
  by_cases h : n = 0
  · simp [h, natToDec, digitsVal]
  · unfold natToDec digitsVal
    rw [if_neg h, foldl_digits_reverse]
    simp [Nat.ofDigits_digits]

theorem natToDec_ne_nil (n : Nat) : natToDec n ≠ [] := by
  by_cases h : n = 0
  · simp [h, natToDec]
  · unfold natToDec
    rw [if_neg h]
    simp only [ne_eq, List.reverse_eq_nil_iff, List.map_eq_nil_iff]
    exact Nat.digits_ne_nil_iff_ne_zero.mpr h

theorem natToDec_mem_digit (n : Nat) : ∀ b ∈ natToDec n, 48 ≤ b ∧ b ≤ 57 := by
  intro b hb
  by_cases h : n = 0
  · simp [h, natToDec] at hb
    omega
  · unfold natToDec at hb
    rw [if_neg h] at hb
    simp only [List.mem_reverse, List.mem_map] at hb
    obtain ⟨d, hd, rfl⟩ := hb
    have := Nat.digits_lt_base (by norm_num) hd
    omega

theorem natToDec_all_isDigit (n : Nat) : (natToDec n).all isDigitByte = true := by
  rw [List.all_eq_true]
  intro b hb
  have := natToDec_mem_digit n b hb
  simp [isDigitByte]
  omega

theorem parseDigitsBounded_natToDec (bound n : Nat) (h : n ≤ bound) :
    parseDigitsBounded bound (natToDec n) = some n := by
  unfold parseDigitsBounded
  rw [if_neg (natToDec_ne_nil n), if_pos (natToDec_all_isDigit n)]
  rw [digitsVal_natToDec]
  exact if_pos h

theorem natToDec_head_digit (n : Nat) :
    ∃ d t, natToDec n = d :: t ∧ 48 ≤ d ∧ d ≤ 57 := by
  rcases h : natToDec n with _ | ⟨d, t⟩
  · exact absurd h (natToDec_ne_nil n)
  · have := natToDec_mem_digit n d (by rw [h]; exact List.mem_cons_self d t)
    exact ⟨d, t, rfl, this.1, this.2⟩

theorem parseSignedDec_natToDec (n : Nat) (h : n < 2 ^ 64) :
    parseSignedDec (natToDec n) = some (n : Int) := by
  obtain ⟨d, t, he, hd1, hd2⟩ := natToDec_head_digit n
  unfold parseSignedDec
  rw [he]
  have hne : (d :: t : Buffer).head? ≠ some 45 := by
    simp only [List.head?_cons, ne_eq, Option.some.injEq]
    omega
  rw [if_neg hne, ← he, parseDigitsBounded_natToDec _ _ (by omega)]
  rfl

theorem rustParseI64_intToDec (i : Int) (h1 : -(2 ^ 63) ≤ i) (h2 : i < 2 ^ 63) :
    rustParseI64 (intToDec i) = some i := by
  by_cases hneg : i < 0
  · unfold intToDec
    rw [if_pos hneg]
    unfold rustParseI64
    have h43 : (45 :: natToDec i.natAbs : Buffer).head? ≠ some 43 := by
      simp only [List.head?_cons, ne_eq, Option.some.injEq]
      omega
    rw [if_neg h43, if_pos (by simp)]
    have hb : i.natAbs ≤ 2 ^ 63 := by omega
    rw [show (45 :: natToDec i.natAbs : Buffer).tail = natToDec i.natAbs from rfl]
    rw [parseDigitsBounded_natToDec _ _ hb]
    show some (-(i.natAbs : Int)) = some i
    congr 1
    omega
  · unfold intToDec
    rw [if_neg hneg]
    obtain ⟨d, t, he, hd1, hd2⟩ := natToDec_head_digit i.toNat
    unfold rustParseI64
    rw [he]
    have h43 : (d :: t : Buffer).head? ≠ some 43 := by
      simp only [List.head?_cons, ne_eq, Option.some.injEq]
      omega
    have h45 : (d :: t : Buffer).head? ≠ some 45 := by
      simp only [List.head?_cons, ne_eq, Option.some.injEq]
      omega
    rw [if_neg h43, if_neg h45, ← he]
    rw [parseDigitsBounded_natToDec _ _ (by omega)]
    show some ((i.toNat : Int)) = some i
    congr 1
    omega

/-! ### CRLF search -/

theorem findCRLFsub_cons (a : Nat) (l : Buffer) :
    findCRLFsub (a :: l)
      = if a = 13 ∧ l.head? = some 10 then some 0
        else (findCRLFsub l).map (· + 1) := by
  by_cases ha : a = 13
  · subst ha
    cases l with
    | nil => simp [findCRLFsub]
    | cons b t =>
      by_cases hb : b = 10
      · subst hb; simp [findCRLFsub]
      · simp [findCRLFsub, hb]
  · cases l with
    | nil => simp [findCRLFsub, ha]
    | cons b t => simp [findCRLFsub, ha]

theorem findCRLFsub_none_of_no13 (l : Buffer) (h : ∀ b ∈ l, b ≠ 13) :
    findCRLFsub l = none := by
  induction l with
  | nil => rfl
  | cons a t ih =>
    rw [findCRLFsub_cons]
    rw [if_neg (by
      rintro ⟨rfl, _⟩
      exact h 13 (List.mem_cons_self _ _) rfl)]
    rw [ih (fun b hb => h b (List.mem_cons_of_mem _ hb))]
    rfl

theorem hasCRLF_cons_false (a : Nat) (l : Buffer) (h : hasCRLF (a :: l) = false) :
    hasCRLF l = false := by
  unfold hasCRLF at *
  rw [findCRLFsub_cons] at h
  by_cases hc : a = 13 ∧ l.head? = some 10
  · rw [if_pos hc] at h
    simp at h
  · rw [if_neg hc] at h
    simpa using h

theorem findCRLFsub_append_crlf (l r : Buffer) (h : hasCRLF l = false) :
    findCRLFsub (l ++ 13 :: 10 :: r) = some l.length := by
  induction l with
  | nil => simp [findCRLFsub]
  | cons a t ih =>
    have ht : hasCRLF t = false := hasCRLF_cons_false a t h
    rw [List.cons_append, findCRLFsub_cons]
    have hc : ¬(a = 13 ∧ (t ++ 13 :: 10 :: r).head? = some 10) := by
      rintro ⟨rfl, hh⟩
      cases t with
      | nil => simp at hh
      | cons b t2 =>
        simp at hh
        subst hh
        unfold hasCRLF at h
        rw [findCRLFsub_cons, if_pos (by simp)] at h
        simp at h
    rw [if_neg hc, ih ht]
    simp

/-! ### UTF-8 facts -/

theorem utf8Step_pos (l : Buffer) : 1 ≤ (utf8Step l).2 := by
  rcases l with _ | ⟨b, _ | ⟨b1, _ | ⟨b2, _ | ⟨b3, t⟩⟩⟩⟩ <;>
    (unfold utf8Step; dsimp only; (try split_ifs) <;> simp)

theorem utf8LossyF_eq_of_valid (fuel : Nat) :
    ∀ l : Buffer, l.length < fuel → utf8ValidF fuel l = true → utf8LossyF fuel l = l := by
  induction fuel with
  | zero => intro l h _; omega
  | succ fu ih =>
    intro l hlen hval
    rcases l with _ | ⟨b, t⟩
    · rfl
    · have hpos := utf8Step_pos (b :: t)
      rcases hu : utf8Step (b :: t) with ⟨ok, n⟩
      rw [hu] at hpos
      have hstep : utf8ValidF (fu + 1) (b :: t)
          = ((utf8Step (b :: t)).1 && utf8ValidF fu ((b :: t).drop (utf8Step (b :: t)).2)) := rfl
      rw [hstep, hu] at hval
      dsimp only at hval hpos
      have h1 : ok = true := by
        cases ok <;> simp_all
      have h2 : utf8ValidF fu ((b :: t).drop n) = true := by
        cases hok : utf8ValidF fu ((b :: t).drop n) <;> simp_all
      have hlen2 : ((b :: t).drop n).length < fu := by
        simp only [List.length_drop, List.length_cons]
        simp only [List.length_cons] at hlen
        omega
      have hrec := ih _ hlen2 h2
      show utf8LossyStep (utf8LossyF fu) (b :: t) = b :: t
      unfold utf8LossyStep
      dsimp only
      rw [hu]
      dsimp only
      rw [if_pos h1, hrec, List.take_append_drop]

theorem utf8Lossy_eq_of_valid (l : Buffer) (h : utf8Valid l = true) :
    utf8Lossy l = l :=
  utf8LossyF_eq_of_valid (l.length + 1) l (by omega) h

theorem utf8Valid_ascii (l : Buffer) (h : ∀ b ∈ l, b ≤ 127) :
    utf8Valid l = true := by
  have main : ∀ fuel (m : Buffer), m.length < fuel → (∀ b ∈ m, b ≤ 127) →
      utf8ValidF fuel m = true := by
    intro fuel
    induction fuel with
    | zero => intro m h1 _; omega
    | succ fu ih =>
      intro m hlen hm
      rcases m with _ | ⟨b, t⟩
      · rfl
      · have hb : b ≤ 127 := hm b (List.mem_cons_self _ _)
        have hstep : utf8Step (b :: t) = (true, 1) := by
          unfold utf8Step
          dsimp only
          rw [if_pos hb]
        show utf8ValidStep (utf8ValidF fu) (b :: t) = true
        unfold utf8ValidStep
        dsimp only
        rw [hstep]
        simp only [Bool.true_and]
        exact ih t (by simp at hlen ⊢; omega)
          (fun x hx => hm x (List.mem_cons_of_mem _ hx))
  exact main (l.length + 1) l (by omega) h

theorem utf8Lossy_digits (n : Nat) : utf8Lossy (natToDec n) = natToDec n :=
  utf8Lossy_eq_of_valid _ (utf8Valid_ascii _ (fun b hb => by
    have := natToDec_mem_digit n b hb
    omega))

theorem utf8Lossy_intToDec (i : Int) : utf8Lossy (intToDec i) = intToDec i := by
  apply utf8Lossy_eq_of_valid
  apply utf8Valid_ascii
  intro b hb
  unfold intToDec at hb
  split at hb
  · rcases List.mem_cons.mp hb with rfl | hb2
    · omega
    · have := natToDec_mem_digit _ b hb2
      omega
  · have := natToDec_mem_digit _ b hb
    omega

/-! ### Ordered insertion -/

theorem btreeInsert_append (k : Buffer) (v : RespFrame)
    (acc : List (Buffer × RespFrame)) (h : ∀ p ∈ acc, p.1 < k) :
    btreeInsert k v acc = acc ++ [(k, v)] := by
  induction acc with
  | nil => rfl
  | cons p rest ih =>
    obtain ⟨k1, v1⟩ := p
    have h1 : k1 < k := h (k1, v1) (List.mem_cons_self _ _)
    unfold btreeInsert
    rw [if_neg (by exact fun hk => absurd h1 (lt_asymm hk))]
    rw [if_neg (by rintro rfl; exact lt_irrefl _ h1)]
    rw [ih (fun p hp => h p (List.mem_cons_of_mem _ hp))]
    rfl

/-! ### Fuel unfoldings and frame-shape helpers -/

theorem expLenF_succ (n : Nat) (buf : Buffer) :
    expLenF (n + 1) buf = expLenStep (expLenF n) buf := rfl

theorem decodeF_succ (n : Nat) (buf : Buffer) :
    decodeF (n + 1) buf = decodeStep (expLenF n) (decodeF n) buf := rfl

theorem drop_header (p : Nat) (s x : Buffer) :
    (p :: (s ++ 13 :: 10 :: x)).drop (s.length + 3) = x := by
  have h : p :: (s ++ 13 :: 10 :: x) = (p :: (s ++ [13, 10])) ++ x := by simp
  rw [h, List.drop_left' (by simp)]

theorem takeseg_header (p : Nat) (s x : Buffer) :
    ((p :: (s ++ 13 :: 10 :: x)).take (s.length + 1)).drop 1 = s := by
  have h : List.take (s.length + 1) (p :: (s ++ 13 :: 10 :: x))
      = p :: List.take s.length (s ++ 13 :: 10 :: x) := by simp
  rw [h, List.take_left' rfl]
  rfl

theorem hasCRLF_natToDec (n : Nat) : hasCRLF (natToDec n) = false := by
  unfold hasCRLF
  rw [findCRLFsub_none_of_no13 _ (fun b hb => by
    have := natToDec_mem_digit n b hb; omega)]
  rfl

theorem hasCRLF_intToDec (i : Int) : hasCRLF (intToDec i) = false := by
  unfold hasCRLF
  rw [findCRLFsub_none_of_no13 _ (fun b hb => by
    unfold intToDec at hb
    split at hb
    · rcases List.mem_cons.mp hb with rfl | hb2
      · omega
      · have := natToDec_mem_digit _ b hb2; omega
    · have := natToDec_mem_digit _ b hb; omega)]
  rfl

theorem extractSimple_encode (pfx : Nat) (s r : Buffer) (hs : hasCRLF s = false) :
    extractSimpleFrameData (pfx :: (s ++ 13 :: 10 :: r)) pfx = .ok (s.length + 1) := by
  unfold extractSimpleFrameData
  rw [if_neg (by simp <;> omega)]
  rw [if_neg (by simp)]
  have hdrop : (pfx :: (s ++ 13 :: 10 :: r)).drop 1 = s ++ 13 :: 10 :: r := rfl
  rw [hdrop, findCRLFsub_append_crlf s r hs]

theorem parseLength_encode (pfx n : Nat) (x : Buffer) (h : n < 2 ^ 64) :
    parseLength (pfx :: (natToDec n ++ 13 :: 10 :: x)) pfx
      = .ok ((natToDec n).length + 1, n) := by
  unfold parseLength
  rw [extractSimple_encode pfx _ x (hasCRLF_natToDec n)]
  dsimp only
  rw [takeseg_header pfx (natToDec n) x]
  rw [utf8Lossy_digits, parseSignedDec_natToDec n h]
  dsimp only
  rw [if_neg (by omega)]
  simp

theorem simpleExpect_encode (pfx : Nat) (s r : Buffer) (hs : hasCRLF s = false) :
    simpleExpectLength (pfx :: (s ++ 13 :: 10 :: r)) pfx = .ok (s.length + 3) := by
  unfold simpleExpectLength
  rw [extractSimple_encode pfx s r hs]

/-! ### Encode shapes -/

theorem encode_simpleString_append (s rest : Buffer) :
    (RespFrame.simpleString s).encode ++ rest = 43 :: (s ++ 13 :: 10 :: rest) := by
  simp [RespFrame.encode, CRLF]

theorem encode_simpleError_append (s rest : Buffer) :
    (RespFrame.simpleError s).encode ++ rest = 45 :: (s ++ 13 :: 10 :: rest) := by
  simp [RespFrame.encode, CRLF]

theorem encode_integer_append (i : Int) (rest : Buffer) :
    (RespFrame.integer i).encode ++ rest = 58 :: (intToDec i ++ 13 :: 10 :: rest) := by
  simp [RespFrame.encode, CRLF]

theorem encode_bulk_nil_append (rest : Buffer) :
    (RespFrame.bulkString []).encode ++ rest = nullBulkBytes ++ rest := by
  simp [RespFrame.encode]

theorem encode_bulk_cons_append (b rest : Buffer) (hb : b ≠ []) :
    (RespFrame.bulkString b).encode ++ rest
      = 36 :: (natToDec b.length ++ 13 :: 10 :: (b ++ 13 :: 10 :: rest)) := by
  simp [RespFrame.encode, CRLF, hb]

theorem encode_array_nil_append (rest : Buffer) :
    (RespFrame.array []).encode ++ rest = nullArrayBytes ++ rest := by
  simp [RespFrame.encode]

theorem encode_array_cons_append (l : List RespFrame) (rest : Buffer) (hl : l ≠ []) :
    (RespFrame.array l).encode ++ rest
      = 42 :: (natToDec l.length ++ 13 :: 10 :: (RespFrame.encodeList l ++ rest)) := by
  have : l.isEmpty = false := by
    cases l with
    | nil => exact absurd rfl hl
    | cons a t => rfl
  simp [RespFrame.encode, CRLF, this]

theorem encode_map_append (m : List (Buffer × RespFrame)) (rest : Buffer) :
    (RespFrame.map m).encode ++ rest
      = 37 :: (natToDec m.length ++ 13 :: 10 :: (RespFrame.encodePairs m ++ rest)) := by
  simp [RespFrame.encode, CRLF]

theorem encode_set_append (l : List RespFrame) (rest : Buffer) :
    (RespFrame.set l).encode ++ rest
      = 126 :: (natToDec l.length ++ 13 :: 10 :: (RespFrame.encodeList l ++ rest)) := by
  simp [RespFrame.encode, CRLF]

theorem encodeList_cons_append (f : RespFrame) (fs : List RespFrame) (rest : Buffer) :
    RespFrame.encodeList (f :: fs) ++ rest = f.encode ++ (RespFrame.encodeList fs ++ rest) := by
  simp [RespFrame.encodeList]

theorem encodePairs_cons_append (k : Buffer) (v : RespFrame)
    (m : List (Buffer × RespFrame)) (rest : Buffer) :
    RespFrame.encodePairs ((k, v) :: m) ++ rest
      = 43 :: (k ++ 13 :: 10 :: (v.encode ++ (RespFrame.encodePairs m ++ rest))) := by
  simp [RespFrame.encodePairs, CRLF]

theorem take5_ne_of_digit (p d : Nat) (t : Buffer) (hd : 48 ≤ d) :
    (p :: d :: t).take 5 ≠ [p, 45, 49, 13, 10] := by
  intro h
  simp [List.take] at h
  omega

/-! ### The probe agrees with the encoder -/

theorem probeElems_encodeList (fu : Nat)
    (IH : ∀ (f : RespFrame) (rest : Buffer), f.wf = true →
      (f.encode ++ rest).length < fu →
      expLenF fu (f.encode ++ rest) = .ok f.encode.length) :
    ∀ (l : List RespFrame) (rest : Buffer), RespFrame.wfList l = true →
      (RespFrame.encodeList l ++ rest).length < fu →
      probeElemsGen (expLenF fu) l.length (RespFrame.encodeList l ++ rest)
        = .ok (RespFrame.encodeList l).length := by
  intro l
  induction l with
  | nil =>
    intro rest _ _
    simp [RespFrame.encodeList, probeElemsGen]
  | cons f fs ih =>
    intro rest hwf hlen
    have hwf2 : f.wf = true ∧ RespFrame.wfList fs = true := by
      unfold RespFrame.wfList at hwf
      simpa using hwf
    rw [encodeList_cons_append] at hlen ⊢
    have hlen1 : (RespFrame.encodeList fs ++ rest).length < fu := by
      simp only [List.length_append] at hlen ⊢
      omega
    show probeElemsGen (expLenF fu) (fs.length + 1) _ = _
    unfold probeElemsGen
    rw [IH f _ hwf2.1 hlen]
    dsimp only
    rw [List.drop_left]
    rw [ih rest hwf2.2 hlen1]
    simp [RespFrame.encodeList]

theorem probePairs_encodePairs (fu : Nat)
    (IH : ∀ (f : RespFrame) (rest : Buffer), f.wf = true →
      (f.encode ++ rest).length < fu →
      expLenF fu (f.encode ++ rest) = .ok f.encode.length) :
    ∀ (m : List (Buffer × RespFrame)) (rest : Buffer), RespFrame.wfPairs m = true →
      (RespFrame.encodePairs m ++ rest).length < fu →
      probePairsGen (expLenF fu) m.length (RespFrame.encodePairs m ++ rest)
        = .ok (RespFrame.encodePairs m).length := by
  intro m
  induction m with
  | nil =>
    intro rest _ _
    simp [RespFrame.encodePairs, probePairsGen]
  | cons p m2 ih =>
    obtain ⟨k, v⟩ := p
    intro rest hwf hlen
    have hwf2 := hwf
    unfold RespFrame.wfPairs at hwf2
    simp at hwf2
    obtain ⟨⟨⟨hk1, hk2⟩, hv⟩, hm⟩ := hwf2
    rw [encodePairs_cons_append] at hlen ⊢
    show probePairsGen (expLenF fu) (m2.length + 1) _ = _
    unfold probePairsGen
    rw [simpleExpect_encode 43 k _ hk2]
    dsimp only
    rw [show List.drop (k.length + 3)
          (43 :: (k ++ 13 :: 10 :: (v.encode ++ (RespFrame.encodePairs m2 ++ rest))))
          = v.encode ++ (RespFrame.encodePairs m2 ++ rest)
        from drop_header 43 k _]
    have hlv : (v.encode ++ (RespFrame.encodePairs m2 ++ rest)).length < fu := by
      simp only [List.length_cons, List.length_append] at hlen ⊢
      omega
    rw [IH v _ hv hlv]
    dsimp only
    rw [List.drop_left]
    have hl2 : (RespFrame.encodePairs m2 ++ rest).length < fu := by
      simp only [List.length_append] at hlv ⊢
      omega
    rw [ih rest hm hl2]
    simp [RespFrame.encodePairs, CRLF]
    omega

/-- Probing an encoded well-formed frame yields exactly the encoding length
(phase agreement between `expect_length` and the encoder). -/
theorem expLen_encode : ∀ (fuel : Nat) (f : RespFrame) (rest : Buffer),
    f.wf = true → (f.encode ++ rest).length < fuel →
    expLenF fuel (f.encode ++ rest) = .ok f.encode.length := by
  intro fuel
  induction fuel with
  | zero => intro f rest _ h; omega
  | succ fu ih =>
    intro f rest hwf hlen
    rw [expLenF_succ]
    cases f with
    | simpleString s =>
      have hs : hasCRLF s = false := by
        unfold RespFrame.wf at hwf
        simp at hwf
        exact hwf.2
      rw [encode_simpleString_append]
      rw [show expLenStep (expLenF fu) (43 :: (s ++ 13 :: 10 :: rest))
            = simpleExpectLength (43 :: (s ++ 13 :: 10 :: rest)) 43 from rfl]
      rw [simpleExpect_encode 43 s rest hs]
      simp [RespFrame.encode, CRLF]
    | simpleError s =>
      have hs : hasCRLF s = false := by
        unfold RespFrame.wf at hwf
        simp at hwf
        exact hwf.2
      rw [encode_simpleError_append]
      rw [show expLenStep (expLenF fu) (45 :: (s ++ 13 :: 10 :: rest))
            = simpleExpectLength (45 :: (s ++ 13 :: 10 :: rest)) 45 from rfl]
      rw [simpleExpect_encode 45 s rest hs]
      simp [RespFrame.encode, CRLF]
    | integer i =>
      rw [encode_integer_append]
      rw [show expLenStep (expLenF fu) (58 :: (intToDec i ++ 13 :: 10 :: rest))
            = simpleExpectLength (58 :: (intToDec i ++ 13 :: 10 :: rest)) 58 from rfl]
      rw [simpleExpect_encode 58 _ rest (hasCRLF_intToDec i)]
      simp [RespFrame.encode, CRLF]
    | bulkString b =>
      by_cases hb : b = []
      · subst hb
        rw [encode_bulk_nil_append]
        rw [show nullBulkBytes ++ rest = 36 :: ([45, 49, 13, 10] ++ rest) from rfl]
        rw [show expLenStep (expLenF fu) (36 :: ([45, 49, 13, 10] ++ rest))
              = bulkExpectLength (36 :: ([45, 49, 13, 10] ++ rest)) from rfl]
        unfold bulkExpectLength
        rw [if_pos (by
          rw [show (36 :: ([45, 49, 13, 10] ++ rest)) = nullBulkBytes ++ rest from rfl]
          exact List.take_left' rfl)]
        simp [RespFrame.encode, nullBulkBytes]
      · have hblen : b.length < 2 ^ 64 := by
          unfold RespFrame.wf at hwf
          simpa using hwf
        rw [encode_bulk_cons_append b rest hb]
        rw [show expLenStep (expLenF fu)
              (36 :: (natToDec b.length ++ 13 :: 10 :: (b ++ 13 :: 10 :: rest)))
              = bulkExpectLength
                  (36 :: (natToDec b.length ++ 13 :: 10 :: (b ++ 13 :: 10 :: rest)))
            from rfl]
        unfold bulkExpectLength
        obtain ⟨d, t, he, hd1, hd2⟩ := natToDec_head_digit b.length
        rw [if_neg (by
          rw [he]
          rw [show ((d :: t) ++ 13 :: 10 :: (b ++ 13 :: 10 :: rest))
                = d :: (t ++ 13 :: 10 :: (b ++ 13 :: 10 :: rest)) from rfl]
          exact take5_ne_of_digit 36 d _ hd1)]
        rw [parseLength_encode 36 b.length _ hblen]
        have hlen2 : (RespFrame.bulkString b).encode.length
            = (natToDec b.length).length + 1 + 2 + b.length + 2 := by
          simp [RespFrame.encode, CRLF, hb]
          omega
        rw [hlen2]
    | array l =>
      by_cases hl : l = []
      · subst hl
        rw [encode_array_nil_append]
        rw [show nullArrayBytes ++ rest = 42 :: ([45, 49, 13, 10] ++ rest) from rfl]
        rw [show expLenStep (expLenF fu) (42 :: ([45, 49, 13, 10] ++ rest))
              = arrayExpectLength (expLenF fu) (42 :: ([45, 49, 13, 10] ++ rest)) from rfl]
        unfold arrayExpectLength
        rw [if_pos (by
          rw [show (42 :: ([45, 49, 13, 10] ++ rest)) = nullArrayBytes ++ rest from rfl]
          exact List.take_left' rfl)]
        simp [RespFrame.encode, nullArrayBytes]
      · have hwf2 : l.length < 2 ^ 64 ∧ RespFrame.wfList l = true := by
          unfold RespFrame.wf at hwf
          simpa using hwf
        rw [encode_array_cons_append l rest hl]
        obtain ⟨d, t, he, hd1, hd2⟩ := natToDec_head_digit l.length
        rw [show expLenStep (expLenF fu)
              (42 :: (natToDec l.length ++ 13 :: 10 :: (RespFrame.encodeList l ++ rest)))
              = arrayExpectLength (expLenF fu)
                  (42 :: (natToDec l.length ++ 13 :: 10 :: (RespFrame.encodeList l ++ rest)))
            from rfl]
        unfold arrayExpectLength
        rw [if_neg (by
          rw [he]
          rw [show ((d :: t) ++ 13 :: 10 :: (RespFrame.encodeList l ++ rest))
                = d :: (t ++ 13 :: 10 :: (RespFrame.encodeList l ++ rest)) from rfl]
          exact take5_ne_of_digit 42 d _ hd1)]
        rw [parseLength_encode 42 l.length _ hwf2.1]
        dsimp only
        rw [show ((42 : Nat) :: (natToDec l.length ++ 13 :: 10 ::
              (RespFrame.encodeList l ++ rest))).drop ((natToDec l.length).length + 1 + 2)
              = RespFrame.encodeList l ++ rest from drop_header 42 _ _]
        have hll : (RespFrame.encodeList l ++ rest).length < fu := by
          rw [encode_array_cons_append l rest hl] at hlen
          have h1 : 1 ≤ (natToDec l.length).length := by
            cases hh : natToDec l.length with
            | nil => exact absurd hh (natToDec_ne_nil _)
            | cons a t2 => simp
          simp only [List.length_cons, List.length_append] at hlen ⊢
          omega
        rw [probeElems_encodeList fu ih l rest hwf2.2 hll]
        have hlen2 : (RespFrame.array l).encode.length
            = (natToDec l.length).length + 1 + 2 + (RespFrame.encodeList l).length := by
          have : l.isEmpty = false := by
            cases l with
            | nil => exact absurd rfl hl
            | cons a t2 => rfl
          simp [RespFrame.encode, CRLF, this]
          omega
        rw [hlen2]
    | null =>
      rw [show (RespFrame.null).encode ++ rest = 95 :: 13 :: 10 :: rest from rfl]
      rfl
    | boolean b =>
      cases b
      · rw [show (RespFrame.boolean false).encode ++ rest
              = 35 :: 102 :: 13 :: 10 :: rest from rfl]
        rfl
      · rw [show (RespFrame.boolean true).encode ++ rest
              = 35 :: 116 :: 13 :: 10 :: rest from rfl]
        rfl
    | double txt =>
      exact absurd hwf (by unfold RespFrame.wf; simp)
    | map m =>
      have hwf2 : (m.length < 2 ^ 64 ∧
          (m.map Prod.fst).Pairwise (· < ·)) ∧ RespFrame.wfPairs m = true := by
        unfold RespFrame.wf at hwf
        simpa using hwf
      rw [encode_map_append]
      rw [show expLenStep (expLenF fu)
            (37 :: (natToDec m.length ++ 13 :: 10 :: (RespFrame.encodePairs m ++ rest)))
            = mapExpectLength (expLenF fu)
                (37 :: (natToDec m.length ++ 13 :: 10 :: (RespFrame.encodePairs m ++ rest)))
          from rfl]
      unfold mapExpectLength
      rw [parseLength_encode 37 m.length _ hwf2.1.1]
      dsimp only
      rw [show ((37 : Nat) :: (natToDec m.length ++ 13 :: 10 ::
            (RespFrame.encodePairs m ++ rest))).drop ((natToDec m.length).length + 1 + 2)
            = RespFrame.encodePairs m ++ rest from drop_header 37 _ _]
      have hll : (RespFrame.encodePairs m ++ rest).length < fu := by
        rw [encode_map_append] at hlen
        have h1 : 1 ≤ (natToDec m.length).length := by
          cases hh : natToDec m.length with
          | nil => exact absurd hh (natToDec_ne_nil _)
          | cons a t2 => simp
        simp only [List.length_cons, List.length_append] at hlen ⊢
        omega
      rw [probePairs_encodePairs fu ih m rest hwf2.2 hll]
      have hlen2 : (RespFrame.map m).encode.length
          = (natToDec m.length).length + 1 + 2 + (RespFrame.encodePairs m).length := by
        simp [RespFrame.encode, CRLF]
        omega
      rw [hlen2]
    | set l =>
      have hwf2 : l.length < 2 ^ 64 ∧ RespFrame.wfList l = true := by
        unfold RespFrame.wf at hwf
        simpa using hwf
      rw [encode_set_append]
      rw [show expLenStep (expLenF fu)
            (126 :: (natToDec l.length ++ 13 :: 10 :: (RespFrame.encodeList l ++ rest)))
            = setExpectLength (expLenF fu)
                (126 :: (natToDec l.length ++ 13 :: 10 :: (RespFrame.encodeList l ++ rest)))
          from rfl]
      unfold setExpectLength
      rw [parseLength_encode 126 l.length _ hwf2.1]
      dsimp only
      rw [show ((126 : Nat) :: (natToDec l.length ++ 13 :: 10 ::
            (RespFrame.encodeList l ++ rest))).drop ((natToDec l.length).length + 1 + 2)
            = RespFrame.encodeList l ++ rest from drop_header 126 _ _]
      have hll : (RespFrame.encodeList l ++ rest).length < fu := by
        rw [encode_set_append] at hlen
        have h1 : 1 ≤ (natToDec l.length).length := by
          cases hh : natToDec l.length with
          | nil => exact absurd hh (natToDec_ne_nil _)
          | cons a t2 => simp
        simp only [List.length_cons, List.length_append] at hlen ⊢
        omega
      rw [probeElems_encodeList fu ih l rest hwf2.2 hll]
      have hlen2 : (RespFrame.set l).encode.length
          = (natToDec l.length).length + 1 + 2 + (RespFrame.encodeList l).length := by
        simp [RespFrame.encode, CRLF]
        omega
      rw [hlen2]

/-- `RespFrame::expect_length` of an encoded well-formed frame. -/
theorem expectLength_encode (f : RespFrame) (rest : Buffer) (h : f.wf = true) :
    RespFrame.expectLength (f.encode ++ rest) = .ok f.encode.length :=
  expLen_encode _ f rest h (by omega)

/-! ### Decode agrees with the encoder (round trip) -/

theorem drop_header2 (p : Nat) (s b x : Buffer) :
    (p :: (s ++ 13 :: 10 :: (b ++ 13 :: 10 :: x))).drop (s.length + 3 + b.length + 2) = x := by
  have h : p :: (s ++ 13 :: 10 :: (b ++ 13 :: 10 :: x))
      = (p :: (s ++ [13, 10] ++ b ++ [13, 10])) ++ x := by simp
  rw [h, List.drop_left' (by simp <;> omega)]

theorem simpleStringDecode_encode (s rest : Buffer) (hval : utf8Valid s = true)
    (hs : hasCRLF s = false) :
    simpleStringDecode (43 :: (s ++ 13 :: 10 :: rest)) = (.ok s, rest) := by
  unfold simpleStringDecode
  rw [extractSimple_encode 43 s rest hs]
  dsimp only
  rw [takeseg_header 43 s rest, utf8Lossy_eq_of_valid s hval]
  rw [drop_header 43 s rest]

theorem simpleErrorDecode_encode (s rest : Buffer) (hval : utf8Valid s = true)
    (hs : hasCRLF s = false) :
    simpleErrorDecode (45 :: (s ++ 13 :: 10 :: rest)) = (.ok s, rest) := by
  unfold simpleErrorDecode
  rw [extractSimple_encode 45 s rest hs]
  dsimp only
  rw [takeseg_header 45 s rest, utf8Lossy_eq_of_valid s hval]
  rw [drop_header 45 s rest]

theorem integerDecode_encode (i : Int) (rest : Buffer)
    (h1 : -(2 ^ 63) ≤ i) (h2 : i < 2 ^ 63) :
    integerDecode (58 :: (intToDec i ++ 13 :: 10 :: rest)) = (.ok i, rest) := by
  unfold integerDecode
  rw [extractSimple_encode 58 _ rest (hasCRLF_intToDec i)]
  dsimp only
  rw [takeseg_header 58 (intToDec i) rest, utf8Lossy_intToDec]
  rw [rustParseI64_intToDec i h1 h2]
  dsimp only
  rw [drop_header 58 (intToDec i) rest]

theorem extractFixedData_ok (buf expect : Buffer)
    (h : buf.take expect.length = expect) (hl : expect.length ≤ buf.length) :
    extractFixedData buf expect = (.ok (), buf.drop expect.length) := by
  unfold extractFixedData
  rw [if_neg (by omega), if_pos h]

theorem extractFixedData_mismatch (buf expect : Buffer)
    (h : buf.take expect.length ≠ expect) (hl : expect.length ≤ buf.length) :
    extractFixedData buf expect
      = (.error (.invalidFrameType "unexpected fixed data"), buf) := by
  unfold extractFixedData
  rw [if_neg (by omega), if_neg h]

theorem boolDecode_true (rest : Buffer) :
    boolDecode (35 :: 116 :: 13 :: 10 :: rest) = (.ok true, rest) := by
  unfold boolDecode
  rw [extractFixedData_ok _ _ (by rfl) (by simp)]
  rfl

theorem boolDecode_false (rest : Buffer) :
    boolDecode (35 :: 102 :: 13 :: 10 :: rest) = (.ok false, rest) := by
  unfold boolDecode
  rw [extractFixedData_mismatch _ _ (by simp) (by simp)]
  dsimp only
  rw [extractFixedData_ok _ _ (by rfl) (by simp)]
  rfl

theorem nullDecode_encode (rest : Buffer) :
    nullDecode (95 :: 13 :: 10 :: rest) = (.ok (), rest) := by
  unfold nullDecode
  rw [extractFixedData_ok _ _ (by rfl) (by simp)]
  rfl

theorem bulkDecode_nil (rest : Buffer) :
    bulkStringDecode (nullBulkBytes ++ rest) = (.ok [], rest) := by
  unfold bulkStringDecode
  rw [extractFixedData_ok _ _ (List.take_left' rfl) (by simp [nullBulkBytes])]
  rw [List.drop_left' (by rfl)]

theorem bulkDecode_cons (b rest : Buffer) (hlen : b.length < 2 ^ 64) :
    bulkStringDecode (36 :: (natToDec b.length ++ 13 :: 10 :: (b ++ 13 :: 10 :: rest)))
      = (.ok b, rest) := by
  obtain ⟨d, t, he, hd1, hd2⟩ := natToDec_head_digit b.length
  unfold bulkStringDecode
  have hfix : extractFixedData
      (36 :: (natToDec b.length ++ 13 :: 10 :: (b ++ 13 :: 10 :: rest))) nullBulkBytes
      = (.error (.invalidFrameType "unexpected fixed data"),
         36 :: (natToDec b.length ++ 13 :: 10 :: (b ++ 13 :: 10 :: rest))) := by
    apply extractFixedData_mismatch
    · rw [he]
      rw [show ((d :: t) ++ 13 :: 10 :: (b ++ 13 :: 10 :: rest))
            = d :: (t ++ 13 :: 10 :: (b ++ 13 :: 10 :: rest)) from rfl]
      exact take5_ne_of_digit 36 d _ hd1
    · rw [he]
      simp [nullBulkBytes]
      omega
  rw [hfix]
  dsimp only
  rw [parseLength_encode 36 b.length _ hlen]
  dsimp only
  rw [show List.drop ((natToDec b.length).length + 1 + 2)
        (36 :: (natToDec b.length ++ 13 :: 10 :: (b ++ 13 :: 10 :: rest)))
        = b ++ 13 :: 10 :: rest from drop_header 36 _ _]
  rw [if_neg (by simp)]
  rw [show List.take b.length (b ++ 13 :: 10 :: rest) = b from List.take_left' rfl]
  rw [show List.drop ((natToDec b.length).length + 1 + 2 + b.length + 2)
        (36 :: (natToDec b.length ++ 13 :: 10 :: (b ++ 13 :: 10 :: rest)))
        = rest from drop_header2 36 _ _ _]

theorem natToDec_length_pos (n : Nat) : 1 ≤ (natToDec n).length := by
  obtain ⟨d, t, he, _, _⟩ := natToDec_head_digit n
  rw [he]
  simp

theorem encode_length_pos (f : RespFrame) : 3 ≤ f.encode.length := by
  cases f with
  | simpleString s => simp [RespFrame.encode, CRLF]
  | simpleError s => simp [RespFrame.encode, CRLF]
  | integer i =>
    have h1 := natToDec_length_pos i.natAbs
    have h2 := natToDec_length_pos i.toNat
    simp [RespFrame.encode, CRLF, intToDec]
  | bulkString b =>
    by_cases hb : b = []
    · subst hb; simp [RespFrame.encode, nullBulkBytes]
    · have := natToDec_length_pos b.length
      simp [RespFrame.encode, CRLF, hb]
      omega
  | array l =>
    by_cases hl : l.isEmpty
    · simp [RespFrame.encode, hl, nullArrayBytes]
    · have := natToDec_length_pos l.length
      simp only [RespFrame.encode, hl, Bool.false_eq_true, if_false]
      simp [CRLF]
      omega
  | null => simp [RespFrame.encode]
  | boolean b => cases b <;> simp [RespFrame.encode]
  | double t => simp [RespFrame.encode, CRLF]
  | map m =>
    have := natToDec_length_pos m.length
    simp [RespFrame.encode, CRLF]
    omega
  | set l =>
    have := natToDec_length_pos l.length
    simp [RespFrame.encode, CRLF]
    omega

theorem encodeList_length_pos (l : List RespFrame) (h : l ≠ []) :
    3 ≤ (RespFrame.encodeList l).length := by
  cases l with
  | nil => exact absurd rfl h
  | cons f fs =>
    have := encode_length_pos f
    simp [RespFrame.encodeList]
    omega

theorem decodeElems_encodeList (fu : Nat)
    (IH : ∀ (f : RespFrame) (rest : Buffer), f.wf = true →
      (f.encode ++ rest).length < fu → decodeF fu (f.encode ++ rest) = (.ok f, rest)) :
    ∀ (l : List RespFrame) (rest : Buffer), RespFrame.wfList l = true →
      (RespFrame.encodeList l ++ rest).length < fu →
      decodeElemsGen (decodeF fu) l.length (RespFrame.encodeList l ++ rest)
        = (.ok l, rest) := by
  intro l
  induction l with
  | nil =>
    intro rest _ _
    simp [RespFrame.encodeList, decodeElemsGen]
  | cons f fs ih =>
    intro rest hwf hlen
    have hwf2 : f.wf = true ∧ RespFrame.wfList fs = true := by
      unfold RespFrame.wfList at hwf
      simpa using hwf
    rw [encodeList_cons_append] at hlen ⊢
    have hlen1 : (RespFrame.encodeList fs ++ rest).length < fu := by
      simp only [List.length_append] at hlen ⊢
      omega
    show decodeElemsGen (decodeF fu) (fs.length + 1) _ = _
    unfold decodeElemsGen
    rw [IH f _ hwf2.1 hlen]
    dsimp only
    rw [ih rest hwf2.2 hlen1]

theorem decodeMap_encodePairs (fu : Nat)
    (IH : ∀ (f : RespFrame) (rest : Buffer), f.wf = true →
      (f.encode ++ rest).length < fu → decodeF fu (f.encode ++ rest) = (.ok f, rest)) :
    ∀ (m acc : List (Buffer × RespFrame)) (rest : Buffer),
      RespFrame.wfPairs m = true →
      (m.map Prod.fst).Pairwise (· < ·) →
      (∀ p ∈ acc, ∀ q ∈ m, p.1 < q.1) →
      (RespFrame.encodePairs m ++ rest).length < fu →
      decodeMapGen (decodeF fu) m.length acc (RespFrame.encodePairs m ++ rest)
        = (.ok (acc ++ m), rest) := by
  intro m
  induction m with
  | nil =>
    intro acc rest _ _ _ _
    simp [RespFrame.encodePairs, decodeMapGen]
  | cons p m2 ih =>
    obtain ⟨k, v⟩ := p
    intro acc rest hwf hsort hacc hlen
    have hwf2 := hwf
    unfold RespFrame.wfPairs at hwf2
    simp at hwf2
    obtain ⟨⟨⟨hk1, hk2⟩, hv⟩, hm⟩ := hwf2
    rw [List.map_cons] at hsort
    have hs2 := List.pairwise_cons.mp hsort
    rw [encodePairs_cons_append] at hlen ⊢
    show decodeMapGen (decodeF fu) (m2.length + 1) _ _ = _
    unfold decodeMapGen
    rw [simpleStringDecode_encode k _ hk1 hk2]
    dsimp only
    rw [IH v _ hv (by
      simp only [List.length_cons, List.length_append] at hlen ⊢
      omega)]
    dsimp only
    rw [btreeInsert_append k v acc
      (fun p hp => hacc p hp (k, v) (List.mem_cons_self _ _))]
    rw [ih (acc ++ [(k, v)]) rest hm hs2.2
      (by
        intro p hp q hq
        rcases List.mem_append.mp hp with hpa | hpk
        · exact hacc p hpa q (List.mem_cons_of_mem _ hq)
        · have : p = (k, v) := by simpa using hpk
          subst this
          exact hs2.1 q.1 (List.mem_map_of_mem Prod.fst hq))
      (by
        simp only [List.length_cons, List.length_append] at hlen ⊢
        omega)]
    simp

/-- Decoding an encoded well-formed frame yields the frame back and leaves
exactly the trailing bytes. -/
theorem decode_encode : ∀ (fuel : Nat) (f : RespFrame) (rest : Buffer),
    f.wf = true → (f.encode ++ rest).length < fuel →
    decodeF fuel (f.encode ++ rest) = (.ok f, rest) := by
  intro fuel
  induction fuel with
  | zero => intro f rest _ h; omega
  | succ fu ih =>
    intro f rest hwf hlen
    rw [decodeF_succ]
    cases f with
    | simpleString s =>
      have hwf2 : utf8Valid s = true ∧ hasCRLF s = false := by
        unfold RespFrame.wf at hwf
        simpa using hwf
      rw [encode_simpleString_append]
      rw [show decodeStep (expLenF fu) (decodeF fu) (43 :: (s ++ 13 :: 10 :: rest))
            = (match simpleStringDecode (43 :: (s ++ 13 :: 10 :: rest)) with
               | (.ok s2, b2) => ((.ok (.simpleString s2) : Except RespError RespFrame), b2)
               | (.error e, b2) => (.error e, b2)) from rfl]
      rw [simpleStringDecode_encode s rest hwf2.1 hwf2.2]
    | simpleError s =>
      have hwf2 : utf8Valid s = true ∧ hasCRLF s = false := by
        unfold RespFrame.wf at hwf
        simpa using hwf
      rw [encode_simpleError_append]
      rw [show decodeStep (expLenF fu) (decodeF fu) (45 :: (s ++ 13 :: 10 :: rest))
            = (match simpleErrorDecode (45 :: (s ++ 13 :: 10 :: rest)) with
               | (.ok s2, b2) => ((.ok (.simpleError s2) : Except RespError RespFrame), b2)
               | (.error e, b2) => (.error e, b2)) from rfl]
      rw [simpleErrorDecode_encode s rest hwf2.1 hwf2.2]
    | integer i =>
      have hwf2 : -(2 ^ 63) ≤ i ∧ i < 2 ^ 63 := by
        unfold RespFrame.wf at hwf
        simpa using hwf
      rw [encode_integer_append]
      rw [show decodeStep (expLenF fu) (decodeF fu) (58 :: (intToDec i ++ 13 :: 10 :: rest))
            = (match integerDecode (58 :: (intToDec i ++ 13 :: 10 :: rest)) with
               | (.ok j, b2) => ((.ok (.integer j) : Except RespError RespFrame), b2)
               | (.error e, b2) => (.error e, b2)) from rfl]
      rw [integerDecode_encode i rest hwf2.1 hwf2.2]
    | bulkString b =>
      by_cases hb : b = []
      · subst hb
        rw [encode_bulk_nil_append]
        rw [show nullBulkBytes ++ rest = 36 :: ([45, 49, 13, 10] ++ rest) from rfl]
        rw [show decodeStep (expLenF fu) (decodeF fu) (36 :: ([45, 49, 13, 10] ++ rest))
              = (match bulkStringDecode (36 :: ([45, 49, 13, 10] ++ rest)) with
                 | (.ok b2, b3) => ((.ok (.bulkString b2) : Except RespError RespFrame), b3)
                 | (.error e, b3) => (.error e, b3)) from rfl]
        rw [show (36 :: ([45, 49, 13, 10] ++ rest) : Buffer)
              = nullBulkBytes ++ rest from rfl]
        rw [bulkDecode_nil rest]
      · have hblen : b.length < 2 ^ 64 := by
          unfold RespFrame.wf at hwf
          simpa using hwf
        rw [encode_bulk_cons_append b rest hb]
        rw [show decodeStep (expLenF fu) (decodeF fu)
              (36 :: (natToDec b.length ++ 13 :: 10 :: (b ++ 13 :: 10 :: rest)))
              = (match bulkStringDecode
                    (36 :: (natToDec b.length ++ 13 :: 10 :: (b ++ 13 :: 10 :: rest))) with
                 | (.ok b2, b3) => ((.ok (.bulkString b2) : Except RespError RespFrame), b3)
                 | (.error e, b3) => (.error e, b3)) from rfl]
        rw [bulkDecode_cons b rest hblen]
    | null =>
      rw [show (RespFrame.null).encode ++ rest = 95 :: 13 :: 10 :: rest from rfl]
      rw [show decodeStep (expLenF fu) (decodeF fu) (95 :: 13 :: 10 :: rest)
            = (match nullDecode (95 :: 13 :: 10 :: rest) with
               | (.ok _, b2) => ((.ok .null : Except RespError RespFrame), b2)
               | (.error e, b2) => (.error e, b2)) from rfl]
      rw [nullDecode_encode rest]
    | boolean b =>
      cases b
      · rw [show (RespFrame.boolean false).encode ++ rest
              = 35 :: 102 :: 13 :: 10 :: rest from rfl]
        rw [show decodeStep (expLenF fu) (decodeF fu) (35 :: 102 :: 13 :: 10 :: rest)
              = (match boolDecode (35 :: 102 :: 13 :: 10 :: rest) with
                 | (.ok b2, b3) => ((.ok (.boolean b2) : Except RespError RespFrame), b3)
                 | (.error e, b3) => (.error e, b3)) from rfl]
        rw [boolDecode_false rest]
      · rw [show (RespFrame.boolean true).encode ++ rest
              = 35 :: 116 :: 13 :: 10 :: rest from rfl]
        rw [show decodeStep (expLenF fu) (decodeF fu) (35 :: 116 :: 13 :: 10 :: rest)
              = (match boolDecode (35 :: 116 :: 13 :: 10 :: rest) with
                 | (.ok b2, b3) => ((.ok (.boolean b2) : Except RespError RespFrame), b3)
                 | (.error e, b3) => (.error e, b3)) from rfl]
        rw [boolDecode_true rest]
    | double txt =>
      exact absurd hwf (by unfold RespFrame.wf; simp)
    | array l =>
      by_cases hl : l = []
      · subst hl
        rw [encode_array_nil_append]
        rw [show nullArrayBytes ++ rest = 42 :: ([45, 49, 13, 10] ++ rest) from rfl]
        rw [show decodeStep (expLenF fu) (decodeF fu) (42 :: ([45, 49, 13, 10] ++ rest))
              = arrayDecode (expLenF fu) (decodeF fu) (42 :: ([45, 49, 13, 10] ++ rest))
            from rfl]
        unfold arrayDecode
        rw [show (42 :: ([45, 49, 13, 10] ++ rest) : Buffer)
              = nullArrayBytes ++ rest from rfl]
        rw [extractFixedData_ok _ _ (List.take_left' rfl) (by simp [nullArrayBytes])]
        dsimp only
        rw [List.drop_left' (by rfl)]
      · have hwf2 : l.length < 2 ^ 64 ∧ RespFrame.wfList l = true := by
          unfold RespFrame.wf at hwf
          simpa using hwf
        rw [encode_array_cons_append l rest hl]
        obtain ⟨d, t, he, hd1, hd2⟩ := natToDec_head_digit l.length
        rw [show decodeStep (expLenF fu) (decodeF fu)
              (42 :: (natToDec l.length ++ 13 :: 10 :: (RespFrame.encodeList l ++ rest)))
              = arrayDecode (expLenF fu) (decodeF fu)
                  (42 :: (natToDec l.length ++ 13 :: 10 :: (RespFrame.encodeList l ++ rest)))
            from rfl]
        unfold arrayDecode
        rw [extractFixedData_mismatch _ _
          (by
            rw [he]
            rw [show ((d :: t) ++ 13 :: 10 :: (RespFrame.encodeList l ++ rest))
                  = d :: (t ++ 13 :: 10 :: (RespFrame.encodeList l ++ rest)) from rfl]
            exact take5_ne_of_digit 42 d _ hd1)
          (by
            rw [he]
            have := encodeList_length_pos l hl
            simp [nullArrayBytes]
            omega)]
        dsimp only
        rw [parseLength_encode 42 l.length _ hwf2.1]
        dsimp only
        rw [show List.drop ((natToDec l.length).length + 1 + 2)
              (42 :: (natToDec l.length ++ 13 :: 10 :: (RespFrame.encodeList l ++ rest)))
              = RespFrame.encodeList l ++ rest from drop_header 42 _ _]
        have h1 : 1 ≤ (natToDec l.length).length := by
          cases hh : natToDec l.length with
          | nil => exact absurd hh (natToDec_ne_nil _)
          | cons a t2 => simp
        have hll : (RespFrame.encodeList l ++ rest).length < fu := by
          rw [encode_array_cons_append l rest hl] at hlen
          simp only [List.length_cons, List.length_append] at hlen ⊢
          omega
        rw [probeElems_encodeList fu (expLen_encode fu) l rest hwf2.2 hll]
        dsimp only
        rw [if_neg (by
          simp only [List.length_cons, List.length_append]
          omega)]
        rw [decodeElems_encodeList fu ih l rest hwf2.2 hll]
    | map m =>
      have hwf2 : (m.length < 2 ^ 64 ∧
          (m.map Prod.fst).Pairwise (· < ·)) ∧ RespFrame.wfPairs m = true := by
        unfold RespFrame.wf at hwf
        simpa using hwf
      rw [encode_map_append]
      rw [show decodeStep (expLenF fu) (decodeF fu)
            (37 :: (natToDec m.length ++ 13 :: 10 :: (RespFrame.encodePairs m ++ rest)))
            = mapDecode (expLenF fu) (decodeF fu)
                (37 :: (natToDec m.length ++ 13 :: 10 :: (RespFrame.encodePairs m ++ rest)))
          from rfl]
      unfold mapDecode
      rw [parseLength_encode 37 m.length _ hwf2.1.1]
      dsimp only
      rw [show List.drop ((natToDec m.length).length + 1 + 2)
            (37 :: (natToDec m.length ++ 13 :: 10 :: (RespFrame.encodePairs m ++ rest)))
            = RespFrame.encodePairs m ++ rest from drop_header 37 _ _]
      have h1 : 1 ≤ (natToDec m.length).length := by
        cases hh : natToDec m.length with
        | nil => exact absurd hh (natToDec_ne_nil _)
        | cons a t2 => simp
      have hll : (RespFrame.encodePairs m ++ rest).length < fu := by
        rw [encode_map_append] at hlen
        simp only [List.length_cons, List.length_append] at hlen ⊢
        omega
      rw [probePairs_encodePairs fu (expLen_encode fu) m rest hwf2.2 hll]
      dsimp only
      rw [if_neg (by
        simp only [List.length_cons, List.length_append]
        omega)]
      rw [decodeMap_encodePairs fu ih m [] rest hwf2.2 hwf2.1.2
        (by intro p hp q _; simp at hp) hll]
      simp
    | set l =>
      have hwf2 : l.length < 2 ^ 64 ∧ RespFrame.wfList l = true := by
        unfold RespFrame.wf at hwf
        simpa using hwf
      rw [encode_set_append]
      rw [show decodeStep (expLenF fu) (decodeF fu)
            (126 :: (natToDec l.length ++ 13 :: 10 :: (RespFrame.encodeList l ++ rest)))
            = setDecode (expLenF fu) (decodeF fu)
                (126 :: (natToDec l.length ++ 13 :: 10 :: (RespFrame.encodeList l ++ rest)))
          from rfl]
      unfold setDecode
      rw [parseLength_encode 126 l.length _ hwf2.1]
      dsimp only
      rw [show List.drop ((natToDec l.length).length + 1 + 2)
            (126 :: (natToDec l.length ++ 13 :: 10 :: (RespFrame.encodeList l ++ rest)))
            = RespFrame.encodeList l ++ rest from drop_header 126 _ _]
      have h1 : 1 ≤ (natToDec l.length).length := by
        cases hh : natToDec l.length with
        | nil => exact absurd hh (natToDec_ne_nil _)
        | cons a t2 => simp
      have hll : (RespFrame.encodeList l ++ rest).length < fu := by
        rw [encode_set_append] at hlen
        simp only [List.length_cons, List.length_append] at hlen ⊢
        omega
      rw [probeElems_encodeList fu (expLen_encode fu) l rest hwf2.2 hll]
      dsimp only
      rw [if_neg (by
        simp only [List.length_cons, List.length_append]
        omega)]
      rw [decodeElems_encodeList fu ih l rest hwf2.2 hll]

/-- `RespFrame::decode` of an encoded well-formed frame, with the buffer
left at exactly the trailing bytes. -/
theorem respDecode_encode (f : RespFrame) (rest : Buffer) (h : f.wf = true) :
    RespFrame.decode (f.encode ++ rest) = (.ok f, rest) :=
  decode_encode _ f rest h (by omega)

/-! ### Probe success excludes `NotComplete` in decode

These lemmas drive the claim that a `NotComplete` result never consumes:
whenever the `expect_length` probe succeeded and the probed bytes are
present, the decoder cannot report `NotComplete`, and on success it
consumes exactly the probed span. -/

theorem extractSimple_ok_facts (buf : Buffer) (pfx e : Nat)
    (h : extractSimpleFrameData buf pfx = .ok e) : 1 ≤ e ∧ 3 ≤ buf.length := by
  unfold extractSimpleFrameData at h
  split_ifs at h with h1 h2
  · rcases hf : findCRLFsub (buf.drop 1) with _ | i
    · rw [hf] at h; exact absurd h (by simp)
    · rw [hf] at h
      simp at h
      omega

theorem parseLength_ok_facts (buf : Buffer) (pfx e n : Nat)
    (h : parseLength buf pfx = .ok (e, n)) : 1 ≤ e ∧ 3 ≤ buf.length := by
  unfold parseLength at h
  rcases hE : extractSimpleFrameData buf pfx with er | e2
  · rw [hE] at h; exact absurd h (by simp)
  · rw [hE] at h
    dsimp only at h
    rcases hp : parseSignedDec (utf8Lossy ((buf.take e2).drop 1)) with _ | v
    · rw [hp] at h; exact absurd h (by simp)
    · rw [hp] at h
      dsimp only at h
      split_ifs at h
      have he2 : e2 = e ∧ v.toNat = n := by simpa using h
      obtain ⟨rfl, _⟩ := he2
      exact extractSimple_ok_facts buf pfx e2 hE

theorem extractFixedData_ok_take (buf expect : Buffer) (u : Unit) (x : Buffer)
    (h : extractFixedData buf expect = (.ok u, x)) :
    buf.take expect.length = expect ∧ x = buf.drop expect.length := by
  unfold extractFixedData at h
  split_ifs at h with h1 h2
  · exact absurd h (by simp)
  · exact ⟨h2, by simpa using (congrArg Prod.snd h).symm⟩
  · exact absurd h (by simp)

theorem simpleExpect_stringDecode (buf : Buffer) (l : Nat)
    (h : simpleExpectLength buf 43 = .ok l) :
    ∃ s, simpleStringDecode buf = (.ok s, buf.drop l) := by
  unfold simpleExpectLength at h
  rcases hE : extractSimpleFrameData buf 43 with er | e
  · rw [hE] at h; exact absurd h (by simp)
  · rw [hE] at h
    have : l = e + 2 := by simpa using h.symm
    subst this
    unfold simpleStringDecode
    rw [hE]
    exact ⟨_, rfl⟩

theorem simpleExpect_errorDecode (buf : Buffer) (l : Nat)
    (h : simpleExpectLength buf 45 = .ok l) :
    ∃ s, simpleErrorDecode buf = (.ok s, buf.drop l) := by
  unfold simpleExpectLength at h
  rcases hE : extractSimpleFrameData buf 45 with er | e
  · rw [hE] at h; exact absurd h (by simp)
  · rw [hE] at h
    have : l = e + 2 := by simpa using h.symm
    subst this
    unfold simpleErrorDecode
    rw [hE]
    exact ⟨_, rfl⟩

theorem simpleExpect_integerDecode (buf : Buffer) (l : Nat)
    (h : simpleExpectLength buf 58 = .ok l) :
    ((integerDecode buf).1 ≠ .error .notComplete) ∧
    (∀ v b2, integerDecode buf = (.ok v, b2) → b2 = buf.drop l) := by
  unfold simpleExpectLength at h
  rcases hE : extractSimpleFrameData buf 58 with er | e
  · rw [hE] at h; exact absurd h (by simp)
  · rw [hE] at h
    have : l = e + 2 := by simpa using h.symm
    subst this
    unfold integerDecode
    rw [hE]
    dsimp only
    rcases hp : rustParseI64 (utf8Lossy ((buf.take e).drop 1)) with _ | v
    · exact ⟨by simp, by intro v b2 hvb; exact absurd hvb (by simp)⟩
    · exact ⟨by simp, by intro v2 b2 hvb; simpa using (congrArg Prod.snd hvb).symm⟩

theorem simpleExpect_doubleDecode (buf : Buffer) (l : Nat)
    (h : simpleExpectLength buf 44 = .ok l) :
    ((doubleDecode buf).1 ≠ .error .notComplete) ∧
    (∀ v b2, doubleDecode buf = (.ok v, b2) → b2 = buf.drop l) := by
  unfold simpleExpectLength at h
  rcases hE : extractSimpleFrameData buf 44 with er | e
  · rw [hE] at h; exact absurd h (by simp)
  · rw [hE] at h
    have : l = e + 2 := by simpa using h.symm
    subst this
    unfold doubleDecode
    rw [hE]
    dsimp only
    split_ifs
    · exact ⟨by simp, by intro v2 b2 hvb; simpa using (congrArg Prod.snd hvb).symm⟩
    · exact ⟨by simp, by intro v2 b2 hvb; exact absurd hvb (by simp)⟩

theorem nullDecode_facts (buf : Buffer) (h3 : 3 ≤ buf.length) :
    ((nullDecode buf).1 ≠ .error .notComplete) ∧
    (∀ u b2, nullDecode buf = (.ok u, b2) → b2 = buf.drop 3) := by
  unfold nullDecode
  by_cases hc : buf.take 3 = [95, 13, 10]
  · rw [extractFixedData_ok _ _ (by simpa using hc) (by simpa using h3)]
    exact ⟨by simp, by intro u b2 hvb; simpa using (congrArg Prod.snd hvb).symm⟩
  · rw [extractFixedData_mismatch _ _ (by simpa using hc) (by simpa using h3)]
    exact ⟨by simp, by intro u b2 hvb; exact absurd hvb (by simp)⟩

theorem boolDecode_facts (buf : Buffer) (h4 : 4 ≤ buf.length) :
    ((boolDecode buf).1 ≠ .error .notComplete) ∧
    (∀ v b2, boolDecode buf = (.ok v, b2) → b2 = buf.drop 4) := by
  unfold boolDecode
  by_cases hc : buf.take 4 = [35, 116, 13, 10]
  · rw [extractFixedData_ok _ _ (by simpa using hc) (by simpa using h4)]
    exact ⟨by simp, by intro v b2 hvb; simpa using (congrArg Prod.snd hvb).symm⟩
  · rw [extractFixedData_mismatch _ _ (by simpa using hc) (by simpa using h4)]
    dsimp only
    by_cases hc2 : buf.take 4 = [35, 102, 13, 10]
    · rw [extractFixedData_ok _ _ (by simpa using hc2) (by simpa using h4)]
      exact ⟨by simp, by intro v b2 hvb; simpa using (congrArg Prod.snd hvb).symm⟩
    · rw [extractFixedData_mismatch _ _ (by simpa using hc2) (by simpa using h4)]
      exact ⟨by simp, by intro v b2 hvb; exact absurd hvb (by simp)⟩

theorem bulkExpect_decode (buf : Buffer) (nL : Nat)
    (h : bulkExpectLength buf = .ok nL) (hle : nL ≤ buf.length) :
    ((bulkStringDecode buf).1 ≠ .error .notComplete) ∧
    (∀ v b2, bulkStringDecode buf = (.ok v, b2) → b2 = buf.drop nL) := by
  unfold bulkExpectLength at h
  by_cases hc : buf.take 5 = nullBulkBytes
  · rw [if_pos hc] at h
    have h5 : nL = 5 := by simpa using h.symm
    subst h5
    unfold bulkStringDecode
    rw [extractFixedData_ok _ _ (by simpa using hc) (by simpa using hle)]
    exact ⟨by simp, by intro v b2 hvb; simpa using (congrArg Prod.snd hvb).symm⟩
  · rw [if_neg hc] at h
    rcases hp : parseLength buf 36 with er | ⟨e, l⟩
    · rw [hp] at h; exact absurd h (by simp)
    · rw [hp] at h
      have hnl : nL = e + 2 + l + 2 := by simpa using h.symm
      subst hnl
      unfold bulkStringDecode
      rcases hEF : extractFixedData buf nullBulkBytes with ⟨res, bb⟩
      cases res with
      | ok u =>
        exact absurd (extractFixedData_ok_take buf nullBulkBytes u bb hEF).1 hc
      | error er2 =>
        dsimp only
        rw [hp]
        dsimp only
        rw [if_neg (by
          simp only [List.length_drop]
          omega)]
        exact ⟨by simp, by intro v b2 hvb; simpa using (congrArg Prod.snd hvb).symm⟩

theorem probeElems_decode_aux (fu : Nat)
    (IH : ∀ (buf : Buffer) (nL : Nat), buf.length < fu → expLenF fu buf = .ok nL →
      nL ≤ buf.length →
      ((decodeF fu buf).1 ≠ .error .notComplete) ∧
      (∀ fr b2, decodeF fu buf = (.ok fr, b2) → b2 = buf.drop nL)) :
    ∀ (n : Nat) (s : Buffer) (t : Nat), s.length < fu →
      probeElemsGen (expLenF fu) n s = .ok t → t ≤ s.length →
      ((decodeElemsGen (decodeF fu) n s).1 ≠ .error .notComplete) ∧
      (∀ items b3, decodeElemsGen (decodeF fu) n s = (.ok items, b3) → b3 = s.drop t) := by
  intro n
  induction n with
  | zero =>
    intro s t hSF hp hle
    have ht : t = 0 := by simpa [probeElemsGen] using hp.symm
    subst ht
    constructor
    · simp [decodeElemsGen]
    · intro items b3 hib
      simp [decodeElemsGen] at hib
      simp [hib.2]
  | succ n ih =>
    intro s t hSF hp hle
    unfold probeElemsGen at hp
    rcases hq : expLenF fu s with er | l
    · rw [hq] at hp; exact absurd hp (by simp)
    · rw [hq] at hp
      dsimp only at hp
      rcases hq2 : probeElemsGen (expLenF fu) n (s.drop l) with er2 | t2
      · rw [hq2] at hp; exact absurd hp (by simp)
      · rw [hq2] at hp
        have ht : t = l + t2 := by simpa using hp.symm
        subst ht
        have hl1 : l ≤ s.length := by omega
        obtain ⟨hA, hB⟩ := IH s l hSF hq hl1
        show ((decodeElemsGen (decodeF fu) (n + 1) s).1 ≠ .error .notComplete) ∧ _
        unfold decodeElemsGen
        rcases hd : decodeF fu s with ⟨res, b2⟩
        cases res with
        | error e =>
          constructor
          · rw [hd] at hA
            dsimp only
            simpa using hA
          · intro items b3 hib
            dsimp only at hib
            exact absurd hib (by simp)
        | ok f =>
          have hb2 : b2 = s.drop l := hB f b2 hd
          subst hb2
          dsimp only
          have hSF2 : (s.drop l).length < fu := by
            simp only [List.length_drop]
            omega
          have hle2 : t2 ≤ (s.drop l).length := by
            simp only [List.length_drop]
            omega
          obtain ⟨hA2, hB2⟩ := ih (s.drop l) t2 hSF2 hq2 hle2
          rcases hd2 : decodeElemsGen (decodeF fu) n (s.drop l) with ⟨res2, b3⟩
          rw [hd2] at hA2
          cases res2 with
          | error e2 =>
            constructor
            · dsimp only
              simpa using hA2
            · intro items2 b4 hib
              dsimp only at hib
              exact absurd hib (by simp)
          | ok items =>
            have hb3 : b3 = (s.drop l).drop t2 := hB2 items b3 hd2
            constructor
            · dsimp only
              simp
            · intro items2 b4 hib
              dsimp only at hib
              have hb4 : b4 = b3 := by simpa using (congrArg Prod.snd hib).symm
              first
              | (rw [hb4, hb3, List.drop_drop]; congr 1; omega)
              | rw [hb4, hb3, List.drop_drop]

theorem probePairs_decode_aux (fu : Nat)
    (IH : ∀ (buf : Buffer) (nL : Nat), buf.length < fu → expLenF fu buf = .ok nL →
      nL ≤ buf.length →
      ((decodeF fu buf).1 ≠ .error .notComplete) ∧
      (∀ fr b2, decodeF fu buf = (.ok fr, b2) → b2 = buf.drop nL)) :
    ∀ (n : Nat) (s : Buffer) (t : Nat) (acc : List (Buffer × RespFrame)),
      s.length < fu →
      probePairsGen (expLenF fu) n s = .ok t → t ≤ s.length →
      ((decodeMapGen (decodeF fu) n acc s).1 ≠ .error .notComplete) ∧
      (∀ entries b3, decodeMapGen (decodeF fu) n acc s = (.ok entries, b3) →
        b3 = s.drop t) := by
  intro n
  induction n with
  | zero =>
    intro s t acc hSF hp hle
    have ht : t = 0 := by simpa [probePairsGen] using hp.symm
    subst ht
    constructor
    · simp [decodeMapGen]
    · intro entries b3 hib
      simp [decodeMapGen] at hib
      simp [hib.2]
  | succ n ih =>
    intro s t acc hSF hp hle
    unfold probePairsGen at hp
    rcases hq1 : simpleExpectLength s 43 with er | l1
    · rw [hq1] at hp; exact absurd hp (by simp)
    · rw [hq1] at hp
      dsimp only at hp
      rcases hq2 : expLenF fu (s.drop l1) with er2 | l2
      · rw [hq2] at hp; exact absurd hp (by simp)
      · rw [hq2] at hp
        dsimp only at hp
        rcases hq3 : probePairsGen (expLenF fu) n ((s.drop l1).drop l2) with er3 | t3
        · rw [hq3] at hp; exact absurd hp (by simp)
        · rw [hq3] at hp
          have ht : t = l1 + l2 + t3 := by simpa using hp.symm
          subst ht
          obtain ⟨key, hkey⟩ := simpleExpect_stringDecode s l1 hq1
          have hSF2 : (s.drop l1).length < fu := by
            simp only [List.length_drop]
            omega
          have hle2 : l2 ≤ (s.drop l1).length := by
            simp only [List.length_drop]
            omega
          obtain ⟨hA, hB⟩ := IH (s.drop l1) l2 hSF2 hq2 hle2
          show ((decodeMapGen (decodeF fu) (n + 1) acc s).1 ≠ .error .notComplete) ∧ _
          unfold decodeMapGen
          rw [hkey]
          dsimp only
          rcases hd : decodeF fu (s.drop l1) with ⟨res, b2⟩
          rw [hd] at hA
          cases res with
          | error e =>
            constructor
            · dsimp only
              simpa using hA
            · intro entries b3 hib
              dsimp only at hib
              exact absurd hib (by simp)
          | ok v =>
            have hb2 : b2 = (s.drop l1).drop l2 := hB v b2 hd
            subst hb2
            dsimp only
            have hSF3 : ((s.drop l1).drop l2).length < fu := by
              simp only [List.length_drop]
              omega
            have hle3 : t3 ≤ ((s.drop l1).drop l2).length := by
              simp only [List.length_drop]
              omega
            obtain ⟨hA2, hB2⟩ := ih ((s.drop l1).drop l2) t3 (btreeInsert key v acc)
              hSF3 hq3 hle3
            constructor
            · exact hA2
            · intro entries b3 hib
              have hb3 := hB2 entries b3 hib
              rw [hb3]
              first
              | (rw [List.drop_drop, List.drop_drop]; congr 1; omega)
              | (rw [List.drop_drop, List.drop_drop])

/-- Agreement of probe and decode at equal fuel: when `expect_length`
succeeds with span `nL` and the probed bytes are present, `decode` cannot
report `NotComplete`, and any success consumes exactly `nL` bytes. -/
theorem probe_decode_agree : ∀ (fuel : Nat) (buf : Buffer) (nL : Nat),
    buf.length < fuel → expLenF fuel buf = .ok nL → nL ≤ buf.length →
    ((decodeF fuel buf).1 ≠ .error .notComplete) ∧
    (∀ fr b2, decodeF fuel buf = (.ok fr, b2) → b2 = buf.drop nL) := by
  intro fuel
  induction fuel with
  | zero =>
    intro buf nL h1 _ _
    exact absurd h1 (Nat.not_lt_zero _)
  | succ fu ih =>
    intro buf nL hF hE hle
    rw [expLenF_succ] at hE
    rw [decodeF_succ]
    unfold expLenStep at hE
    split at hE
    · exact absurd hE (by simp)
    · rename_i heq
      obtain ⟨s, hs⟩ := simpleExpect_stringDecode buf nL hE
      have hd : decodeStep (expLenF fu) (decodeF fu) buf
          = (.ok (.simpleString s), buf.drop nL) := by
        unfold decodeStep
        rw [heq, hs]
      rw [hd]
      exact ⟨by simp, by intro fr b2 hfb; simpa using (congrArg Prod.snd hfb).symm⟩
    · rename_i heq
      obtain ⟨s, hs⟩ := simpleExpect_errorDecode buf nL hE
      have hd : decodeStep (expLenF fu) (decodeF fu) buf
          = (.ok (.simpleError s), buf.drop nL) := by
        unfold decodeStep
        rw [heq, hs]
      rw [hd]
      exact ⟨by simp, by intro fr b2 hfb; simpa using (congrArg Prod.snd hfb).symm⟩
    · rename_i heq
      obtain ⟨hA, hB⟩ := simpleExpect_integerDecode buf nL hE
      have hd : decodeStep (expLenF fu) (decodeF fu) buf
          = (match integerDecode buf with
             | (.ok i, b2) => ((.ok (.integer i) : Except RespError RespFrame), b2)
             | (.error e, b2) => (.error e, b2)) := by
        unfold decodeStep
        rw [heq]
      rw [hd]
      rcases hi : integerDecode buf with ⟨res, b2⟩
      rw [hi] at hA
      cases res with
      | error e =>
        refine ⟨by dsimp only; simpa using hA, ?_⟩
        intro fr b3 hfb
        dsimp only at hfb
        exact absurd hfb (by simp)
      | ok i =>
        refine ⟨by dsimp only; simp, ?_⟩
        intro fr b3 hfb
        dsimp only at hfb
        have hb3 : b3 = b2 := by simpa using (congrArg Prod.snd hfb).symm
        rw [hb3]
        exact hB i b2 hi
    · rename_i heq
      obtain ⟨hA, hB⟩ := simpleExpect_doubleDecode buf nL hE
      have hd : decodeStep (expLenF fu) (decodeF fu) buf
          = (match doubleDecode buf with
             | (.ok t, b2) => ((.ok (.double t) : Except RespError RespFrame), b2)
             | (.error e, b2) => (.error e, b2)) := by
        unfold decodeStep
        rw [heq]
      rw [hd]
      rcases hi : doubleDecode buf with ⟨res, b2⟩
      rw [hi] at hA
      cases res with
      | error e =>
        refine ⟨by dsimp only; simpa using hA, ?_⟩
        intro fr b3 hfb
        dsimp only at hfb
        exact absurd hfb (by simp)
      | ok t =>
        refine ⟨by dsimp only; simp, ?_⟩
        intro fr b3 hfb
        dsimp only at hfb
        have hb3 : b3 = b2 := by simpa using (congrArg Prod.snd hfb).symm
        rw [hb3]
        exact hB t b2 hi
    · rename_i heq
      have h3 : nL = 3 := by simpa using hE.symm
      subst h3
      obtain ⟨hA, hB⟩ := nullDecode_facts buf hle
      have hd : decodeStep (expLenF fu) (decodeF fu) buf
          = (match nullDecode buf with
             | (.ok _, b2) => ((.ok .null : Except RespError RespFrame), b2)
             | (.error e, b2) => (.error e, b2)) := by
        unfold decodeStep
        rw [heq]
      rw [hd]
      rcases hi : nullDecode buf with ⟨res, b2⟩
      rw [hi] at hA
      cases res with
      | error e =>
        refine ⟨by dsimp only; simpa using hA, ?_⟩
        intro fr b3 hfb
        dsimp only at hfb
        exact absurd hfb (by simp)
      | ok u =>
        refine ⟨by dsimp only; simp, ?_⟩
        intro fr b3 hfb
        dsimp only at hfb
        have hb3 : b3 = b2 := by simpa using (congrArg Prod.snd hfb).symm
        rw [hb3]
        exact hB u b2 hi
    · rename_i heq
      have h4 : nL = 4 := by simpa using hE.symm
      subst h4
      obtain ⟨hA, hB⟩ := boolDecode_facts buf hle
      have hd : decodeStep (expLenF fu) (decodeF fu) buf
          = (match boolDecode buf with
             | (.ok b, b2) => ((.ok (.boolean b) : Except RespError RespFrame), b2)
             | (.error e, b2) => (.error e, b2)) := by
        unfold decodeStep
        rw [heq]
      rw [hd]
      rcases hi : boolDecode buf with ⟨res, b2⟩
      rw [hi] at hA
      cases res with
      | error e =>
        refine ⟨by dsimp only; simpa using hA, ?_⟩
        intro fr b3 hfb
        dsimp only at hfb
        exact absurd hfb (by simp)
      | ok b =>
        refine ⟨by dsimp only; simp, ?_⟩
        intro fr b3 hfb
        dsimp only at hfb
        have hb3 : b3 = b2 := by simpa using (congrArg Prod.snd hfb).symm
        rw [hb3]
        exact hB b b2 hi
    · rename_i heq
      obtain ⟨hA, hB⟩ := bulkExpect_decode buf nL hE hle
      have hd : decodeStep (expLenF fu) (decodeF fu) buf
          = (match bulkStringDecode buf with
             | (.ok b, b2) => ((.ok (.bulkString b) : Except RespError RespFrame), b2)
             | (.error e, b2) => (.error e, b2)) := by
        unfold decodeStep
        rw [heq]
      rw [hd]
      rcases hi : bulkStringDecode buf with ⟨res, b2⟩
      rw [hi] at hA
      cases res with
      | error e =>
        refine ⟨by dsimp only; simpa using hA, ?_⟩
        intro fr b3 hfb
        dsimp only at hfb
        exact absurd hfb (by simp)
      | ok b =>
        refine ⟨by dsimp only; simp, ?_⟩
        intro fr b3 hfb
        dsimp only at hfb
        have hb3 : b3 = b2 := by simpa using (congrArg Prod.snd hfb).symm
        rw [hb3]
        exact hB b b2 hi
    · rename_i heq
      have hd0 : decodeStep (expLenF fu) (decodeF fu) buf
          = arrayDecode (expLenF fu) (decodeF fu) buf := by
        unfold decodeStep
        rw [heq]
      rw [hd0]
      unfold arrayExpectLength at hE
      by_cases hc : buf.take 5 = nullArrayBytes
      · rw [if_pos hc] at hE
        have h5 : nL = 5 := by simpa using hE.symm
        subst h5
        unfold arrayDecode
        rw [extractFixedData_ok buf nullArrayBytes (by simpa using hc) (by simpa using hle)]
        refine ⟨by dsimp only; simp, ?_⟩
        intro fr b2 hfb
        dsimp only at hfb
        simpa [nullArrayBytes] using (congrArg Prod.snd hfb).symm
      · rw [if_neg hc] at hE
        rcases hp : parseLength buf 42 with er | ⟨e, n⟩
        · rw [hp] at hE; exact absurd hE (by simp)
        · rw [hp] at hE
          dsimp only at hE
          rcases hq : probeElemsGen (expLenF fu) n (buf.drop (e + 2)) with er2 | t
          · rw [hq] at hE; exact absurd hE (by simp)
          · rw [hq] at hE
            have hnl : nL = e + 2 + t := by simpa using hE.symm
            subst hnl
            obtain ⟨he1, he3⟩ := parseLength_ok_facts buf 42 e n hp
            unfold arrayDecode
            rcases hEF : extractFixedData buf nullArrayBytes with ⟨res0, bb0⟩
            cases res0 with
            | ok u =>
              exact absurd (extractFixedData_ok_take buf nullArrayBytes u bb0 hEF).1 hc
            | error er0 =>
              dsimp only
              rw [hp]
              dsimp only
              rw [hq]
              dsimp only
              rw [if_neg (by omega)]
              have hSF2 : (buf.drop (e + 2)).length < fu := by
                simp only [List.length_drop]
                omega
              have hle2 : t ≤ (buf.drop (e + 2)).length := by
                simp only [List.length_drop]
                omega
              obtain ⟨hA2, hB2⟩ :=
                probeElems_decode_aux fu ih n (buf.drop (e + 2)) t hSF2 hq hle2
              rcases hd2 : decodeElemsGen (decodeF fu) n (buf.drop (e + 2)) with ⟨res2, b3⟩
              rw [hd2] at hA2
              cases res2 with
              | error e2 =>
                refine ⟨by dsimp only; simpa using hA2, ?_⟩
                intro fr b4 hfb
                dsimp only at hfb
                exact absurd hfb (by simp)
              | ok items =>
                have hb3 : b3 = (buf.drop (e + 2)).drop t := hB2 items b3 hd2
                refine ⟨by dsimp only; simp, ?_⟩
                intro fr b4 hfb
                dsimp only at hfb
                have hb4 : b4 = b3 := by simpa using (congrArg Prod.snd hfb).symm
                first
                | (rw [hb4, hb3, List.drop_drop]; congr 1; omega)
                | rw [hb4, hb3, List.drop_drop]
    · rename_i heq
      have hd0 : decodeStep (expLenF fu) (decodeF fu) buf
          = mapDecode (expLenF fu) (decodeF fu) buf := by
        unfold decodeStep
        rw [heq]
      rw [hd0]
      unfold mapExpectLength at hE
      rcases hp : parseLength buf 37 with er | ⟨e, n⟩
      · rw [hp] at hE; exact absurd hE (by simp)
      · rw [hp] at hE
        dsimp only at hE
        rcases hq : probePairsGen (expLenF fu) n (buf.drop (e + 2)) with er2 | t
        · rw [hq] at hE; exact absurd hE (by simp)
        · rw [hq] at hE
          have hnl : nL = e + 2 + t := by simpa using hE.symm
          subst hnl
          obtain ⟨he1, he3⟩ := parseLength_ok_facts buf 37 e n hp
          unfold mapDecode
          rw [hp]
          dsimp only
          rw [hq]
          dsimp only
          rw [if_neg (by omega)]
          have hSF2 : (buf.drop (e + 2)).length < fu := by
            simp only [List.length_drop]
            omega
          have hle2 : t ≤ (buf.drop (e + 2)).length := by
            simp only [List.length_drop]
            omega
          obtain ⟨hA2, hB2⟩ :=
            probePairs_decode_aux fu ih n (buf.drop (e + 2)) t [] hSF2 hq hle2
          rcases hd2 : decodeMapGen (decodeF fu) n [] (buf.drop (e + 2)) with ⟨res2, b3⟩
          rw [hd2] at hA2
          cases res2 with
          | error e2 =>
            refine ⟨by dsimp only; simpa using hA2, ?_⟩
            intro fr b4 hfb
            dsimp only at hfb
            exact absurd hfb (by simp)
          | ok entries =>
            have hb3 : b3 = (buf.drop (e + 2)).drop t := hB2 entries b3 hd2
            refine ⟨by dsimp only; simp, ?_⟩
            intro fr b4 hfb
            dsimp only at hfb
            have hb4 : b4 = b3 := by simpa using (congrArg Prod.snd hfb).symm
            first
            | (rw [hb4, hb3, List.drop_drop]; congr 1; omega)
            | rw [hb4, hb3, List.drop_drop]
    · rename_i heq
      have hd0 : decodeStep (expLenF fu) (decodeF fu) buf
          = setDecode (expLenF fu) (decodeF fu) buf := by
        unfold decodeStep
        rw [heq]
      rw [hd0]
      unfold setExpectLength at hE
      rcases hp : parseLength buf 126 with er | ⟨e, n⟩
      · rw [hp] at hE; exact absurd hE (by simp)
      · rw [hp] at hE
        dsimp only at hE
        rcases hq : probeElemsGen (expLenF fu) n (buf.drop (e + 2)) with er2 | t
        · rw [hq] at hE; exact absurd hE (by simp)
        · rw [hq] at hE
          have hnl : nL = e + 2 + t := by simpa using hE.symm
          subst hnl
          obtain ⟨he1, he3⟩ := parseLength_ok_facts buf 126 e n hp
          unfold setDecode
          rw [hp]
          dsimp only
          rw [hq]
          dsimp only
          rw [if_neg (by omega)]
          have hSF2 : (buf.drop (e + 2)).length < fu := by
            simp only [List.length_drop]
            omega
          have hle2 : t ≤ (buf.drop (e + 2)).length := by
            simp only [List.length_drop]
            omega
          obtain ⟨hA2, hB2⟩ :=
            probeElems_decode_aux fu ih n (buf.drop (e + 2)) t hSF2 hq hle2
          rcases hd2 : decodeElemsGen (decodeF fu) n (buf.drop (e + 2)) with ⟨res2, b3⟩
          rw [hd2] at hA2
          cases res2 with
          | error e2 =>
            refine ⟨by dsimp only; simpa using hA2, ?_⟩
            intro fr b4 hfb
            dsimp only at hfb
            exact absurd hfb (by simp)
          | ok items =>
            have hb3 : b3 = (buf.drop (e + 2)).drop t := hB2 items b3 hd2
            refine ⟨by dsimp only; simp, ?_⟩
            intro fr b4 hfb
            dsimp only at hfb
            have hb4 : b4 = b3 := by simpa using (congrArg Prod.snd hfb).symm
            first
            | (rw [hb4, hb3, List.drop_drop]; congr 1; omega)
            | rw [hb4, hb3, List.drop_drop]
    · exact absurd hE (by simp)

/-! ### `NotComplete` never consumes -/

theorem simpleStringDecode_nc (buf b2 : Buffer)
    (h : simpleStringDecode buf = (.error .notComplete, b2)) : b2 = buf := by
  unfold simpleStringDecode at h
  rcases hE : extractSimpleFrameData buf 43 with er | k
  · rw [hE] at h
    simpa using (congrArg Prod.snd h).symm
  · rw [hE] at h
    exact absurd h (by simp)

theorem simpleErrorDecode_nc (buf b2 : Buffer)
    (h : simpleErrorDecode buf = (.error .notComplete, b2)) : b2 = buf := by
  unfold simpleErrorDecode at h
  rcases hE : extractSimpleFrameData buf 45 with er | k
  · rw [hE] at h
    simpa using (congrArg Prod.snd h).symm
  · rw [hE] at h
    exact absurd h (by simp)

theorem integerDecode_nc (buf b2 : Buffer)
    (h : integerDecode buf = (.error .notComplete, b2)) : b2 = buf := by
  unfold integerDecode at h
  rcases hE : extractSimpleFrameData buf 58 with er | k
  · rw [hE] at h
    simpa using (congrArg Prod.snd h).symm
  · rw [hE] at h
    dsimp only at h
    rcases hp : rustParseI64 (utf8Lossy ((buf.take k).drop 1)) with _ | v
    · rw [hp] at h
      have h1 := congrArg Prod.fst h
      simp at h1
    · rw [hp] at h
      exact absurd h (by simp)

theorem doubleDecode_nc (buf b2 : Buffer)
    (h : doubleDecode buf = (.error .notComplete, b2)) : b2 = buf := by
  unfold doubleDecode at h
  rcases hE : extractSimpleFrameData buf 44 with er | k
  · rw [hE] at h
    simpa using (congrArg Prod.snd h).symm
  · rw [hE] at h
    dsimp only at h
    split_ifs at h
    · exact absurd h (by simp)
    · have h1 := congrArg Prod.fst h
      simp at h1

theorem nullDecode_nc (buf b2 : Buffer)
    (h : nullDecode buf = (.error .notComplete, b2)) : b2 = buf := by
  unfold nullDecode at h
  rcases hE : extractFixedData buf [95, 13, 10] with ⟨res, bb⟩
  rw [hE] at h
  cases res with
  | ok u => exact absurd h (by simp)
  | error er =>
    dsimp only at h
    simpa using (congrArg Prod.snd h).symm

theorem boolDecode_nc (buf b2 : Buffer)
    (h : boolDecode buf = (.error .notComplete, b2)) : b2 = buf := by
  unfold boolDecode at h
  rcases hE : extractFixedData buf [35, 116, 13, 10] with ⟨res, bb⟩
  rw [hE] at h
  cases res with
  | ok u => exact absurd h (by simp)
  | error er =>
    have hrest : ∀ hh : (match extractFixedData buf [35, 102, 13, 10] with
        | (.ok _, c2) => ((.ok false : Except RespError Bool), c2)
        | (.error e, _) => (.error e, buf)) = (.error .notComplete, b2), b2 = buf := by
      intro hh
      rcases hE2 : extractFixedData buf [35, 102, 13, 10] with ⟨res2, cc⟩
      rw [hE2] at hh
      cases res2 with
      | ok u2 => exact absurd hh (by simp)
      | error er2 =>
        dsimp only at hh
        simpa using (congrArg Prod.snd hh).symm
    cases er with
    | notComplete =>
      dsimp only at h
      simpa using (congrArg Prod.snd h).symm
    | invalidFrame m => exact hrest h
    | invalidFrameType m => exact hrest h
    | invalidFrameLength l => exact hrest h
    | parseIntError => exact hrest h
    | parseFloatError => exact hrest h

theorem bulkStringDecode_nc (buf b2 : Buffer)
    (h : bulkStringDecode buf = (.error .notComplete, b2)) : b2 = buf := by
  unfold bulkStringDecode at h
  rcases hE : extractFixedData buf nullBulkBytes with ⟨res, bb⟩
  rw [hE] at h
  cases res with
  | ok u => exact absurd h (by simp)
  | error er =>
    dsimp only at h
    rcases hp : parseLength buf 36 with er2 | ⟨e, len⟩
    · rw [hp] at h
      simpa using (congrArg Prod.snd h).symm
    · rw [hp] at h
      dsimp only at h
      split_ifs at h
      · simpa using (congrArg Prod.snd h).symm
      · exact absurd h (by simp)

theorem decodeF_nc_preserves (fu : Nat) (buf : Buffer) (hF : buf.length ≤ fu) :
    ∀ b2, decodeF (fu + 1) buf = (.error .notComplete, b2) → b2 = buf := by
  intro b2 h
  rw [decodeF_succ] at h
  unfold decodeStep at h
  split at h
  · simpa using (congrArg Prod.snd h).symm
  · rcases hs : simpleStringDecode buf with ⟨res, bb⟩
    rw [hs] at h
    cases res with
    | ok s => exact absurd h (by simp)
    | error e =>
      dsimp only at h
      have h1 : e = RespError.notComplete := by simpa using congrArg Prod.fst h
      have h2 : b2 = bb := by simpa using (congrArg Prod.snd h).symm
      subst h1
      rw [h2]
      exact simpleStringDecode_nc buf bb hs
  · rcases hs : simpleErrorDecode buf with ⟨res, bb⟩
    rw [hs] at h
    cases res with
    | ok s => exact absurd h (by simp)
    | error e =>
      dsimp only at h
      have h1 : e = RespError.notComplete := by simpa using congrArg Prod.fst h
      have h2 : b2 = bb := by simpa using (congrArg Prod.snd h).symm
      subst h1
      rw [h2]
      exact simpleErrorDecode_nc buf bb hs
  · rcases hs : integerDecode buf with ⟨res, bb⟩
    rw [hs] at h
    cases res with
    | ok i => exact absurd h (by simp)
    | error e =>
      dsimp only at h
      have h1 : e = RespError.notComplete := by simpa using congrArg Prod.fst h
      have h2 : b2 = bb := by simpa using (congrArg Prod.snd h).symm
      subst h1
      rw [h2]
      exact integerDecode_nc buf bb hs
  · rcases hs : doubleDecode buf with ⟨res, bb⟩
    rw [hs] at h
    cases res with
    | ok t => exact absurd h (by simp)
    | error e =>
      dsimp only at h
      have h1 : e = RespError.notComplete := by simpa using congrArg Prod.fst h
      have h2 : b2 = bb := by simpa using (congrArg Prod.snd h).symm
      subst h1
      rw [h2]
      exact doubleDecode_nc buf bb hs
  · rcases hs : nullDecode buf with ⟨res, bb⟩
    rw [hs] at h
    cases res with
    | ok u => exact absurd h (by simp)
    | error e =>
      dsimp only at h
      have h1 : e = RespError.notComplete := by simpa using congrArg Prod.fst h
      have h2 : b2 = bb := by simpa using (congrArg Prod.snd h).symm
      subst h1
      rw [h2]
      exact nullDecode_nc buf bb hs
  · rcases hs : boolDecode buf with ⟨res, bb⟩
    rw [hs] at h
    cases res with
    | ok b => exact absurd h (by simp)
    | error e =>
      dsimp only at h
      have h1 : e = RespError.notComplete := by simpa using congrArg Prod.fst h
      have h2 : b2 = bb := by simpa using (congrArg Prod.snd h).symm
      subst h1
      rw [h2]
      exact boolDecode_nc buf bb hs
  · rcases hs : bulkStringDecode buf with ⟨res, bb⟩
    rw [hs] at h
    cases res with
    | ok b => exact absurd h (by simp)
    | error e =>
      dsimp only at h
      have h1 : e = RespError.notComplete := by simpa using congrArg Prod.fst h
      have h2 : b2 = bb := by simpa using (congrArg Prod.snd h).symm
      subst h1
      rw [h2]
      exact bulkStringDecode_nc buf bb hs
  · unfold arrayDecode at h
    rcases hE0 : extractFixedData buf nullArrayBytes with ⟨res0, bb0⟩
    rw [hE0] at h
    cases res0 with
    | ok u => exact absurd h (by simp)
    | error er0 =>
      dsimp only at h
      rcases hp : parseLength buf 42 with er | ⟨e, n⟩
      · rw [hp] at h
        simpa using (congrArg Prod.snd h).symm
      · rw [hp] at h
        dsimp only at h
        rcases hq : probeElemsGen (expLenF fu) n (buf.drop (e + 2)) with er2 | t
        · rw [hq] at h
          simpa using (congrArg Prod.snd h).symm
        · rw [hq] at h
          dsimp only at h
          split_ifs at h with hcomp
          · simpa using (congrArg Prod.snd h).symm
          · obtain ⟨he1, he3⟩ := parseLength_ok_facts buf 42 e n hp
            have hSF2 : (buf.drop (e + 2)).length < fu := by
              simp only [List.length_drop]
              omega
            have hle2 : t ≤ (buf.drop (e + 2)).length := by
              simp only [List.length_drop]
              omega
            obtain ⟨hA2, _⟩ := probeElems_decode_aux fu
              (fun b n h1 h2 h3 => probe_decode_agree fu b n h1 h2 h3)
              n (buf.drop (e + 2)) t hSF2 hq hle2
            rcases hd2 : decodeElemsGen (decodeF fu) n (buf.drop (e + 2)) with ⟨res2, b3⟩
            rw [hd2] at hA2 h
            cases res2 with
            | ok items => exact absurd h (by simp)
            | error e2 =>
              dsimp only at h
              have h1 : e2 = RespError.notComplete := by simpa using congrArg Prod.fst h
              exact absurd h1 (by simpa using hA2)
  · unfold mapDecode at h
    rcases hp : parseLength buf 37 with er | ⟨e, n⟩
    · rw [hp] at h
      simpa using (congrArg Prod.snd h).symm
    · rw [hp] at h
      dsimp only at h
      rcases hq : probePairsGen (expLenF fu) n (buf.drop (e + 2)) with er2 | t
      · rw [hq] at h
        simpa using (congrArg Prod.snd h).symm
      · rw [hq] at h
        dsimp only at h
        split_ifs at h with hcomp
        · simpa using (congrArg Prod.snd h).symm
        · obtain ⟨he1, he3⟩ := parseLength_ok_facts buf 37 e n hp
          have hSF2 : (buf.drop (e + 2)).length < fu := by
            simp only [List.length_drop]
            omega
          have hle2 : t ≤ (buf.drop (e + 2)).length := by
            simp only [List.length_drop]
            omega
          obtain ⟨hA2, _⟩ := probePairs_decode_aux fu
            (fun b n h1 h2 h3 => probe_decode_agree fu b n h1 h2 h3)
            n (buf.drop (e + 2)) t [] hSF2 hq hle2
          rcases hd2 : decodeMapGen (decodeF fu) n [] (buf.drop (e + 2)) with ⟨res2, b3⟩
          rw [hd2] at hA2 h
          cases res2 with
          | ok entries => exact absurd h (by simp)
          | error e2 =>
            dsimp only at h
            have h1 : e2 = RespError.notComplete := by simpa using congrArg Prod.fst h
            exact absurd h1 (by simpa using hA2)
  · unfold setDecode at h
    rcases hp : parseLength buf 126 with er | ⟨e, n⟩
    · rw [hp] at h
      simpa using (congrArg Prod.snd h).symm
    · rw [hp] at h
      dsimp only at h
      rcases hq : probeElemsGen (expLenF fu) n (buf.drop (e + 2)) with er2 | t
      · rw [hq] at h
        simpa using (congrArg Prod.snd h).symm
      · rw [hq] at h
        dsimp only at h
        split_ifs at h with hcomp
        · simpa using (congrArg Prod.snd h).symm
        · obtain ⟨he1, he3⟩ := parseLength_ok_facts buf 126 e n hp
          have hSF2 : (buf.drop (e + 2)).length < fu := by
            simp only [List.length_drop]
            omega
          have hle2 : t ≤ (buf.drop (e + 2)).length := by
            simp only [List.length_drop]
            omega
          obtain ⟨hA2, _⟩ := probeElems_decode_aux fu
            (fun b n h1 h2 h3 => probe_decode_agree fu b n h1 h2 h3)
            n (buf.drop (e + 2)) t hSF2 hq hle2
          rcases hd2 : decodeElemsGen (decodeF fu) n (buf.drop (e + 2)) with ⟨res2, b3⟩
          rw [hd2] at hA2 h
          cases res2 with
          | ok items => exact absurd h (by simp)
          | error e2 =>
            dsimp only at h
            have h1 : e2 = RespError.notComplete := by simpa using congrArg Prod.fst h
            exact absurd h1 (by simpa using hA2)
  · have h1 := congrArg Prod.fst h
    simp at h1

/-! ### Lossy text decode, independent of UTF-8 validity -/

theorem decode_cons (b : Nat) (t : Buffer) :
    RespFrame.decode (b :: t)
      = decodeStep (expLenF (t.length + 1)) (decodeF (t.length + 1)) (b :: t) := rfl

theorem simpleStringDecode_lossy (s rest : Buffer) (hs : hasCRLF s = false) :
    simpleStringDecode (43 :: (s ++ 13 :: 10 :: rest)) = (.ok (utf8Lossy s), rest) := by
  unfold simpleStringDecode
  rw [extractSimple_encode 43 s rest hs]
  dsimp only
  rw [takeseg_header 43 s rest]
  rw [drop_header 43 s rest]

theorem simpleErrorDecode_lossy (s rest : Buffer) (hs : hasCRLF s = false) :
    simpleErrorDecode (45 :: (s ++ 13 :: 10 :: rest)) = (.ok (utf8Lossy s), rest) := by
  unfold simpleErrorDecode
  rw [extractSimple_encode 45 s rest hs]
  dsimp only
  rw [takeseg_header 45 s rest]
  rw [drop_header 45 s rest]

/-! ### The `HGetAll` sort: ordering, permutation, determinism -/

theorem pairKeyLe_trans : ∀ a b c : Buffer × RespFrame,
    keyLe a b = true → keyLe b c = true → keyLe a c = true := by
  intro a b c h1 h2
  simp only [keyLe, decide_eq_true_eq] at h1 h2 ⊢
  exact le_trans h1 h2

theorem pairKeyLe_total : ∀ a b : Buffer × RespFrame,
    (keyLe a b || keyLe b a) = true := by
  intro a b
  simp only [keyLe, Bool.or_eq_true, decide_eq_true_eq]
  exact le_total a.1 b.1

theorem mergeSort_key_sorted (l : List (Buffer × RespFrame)) :
    ((l.mergeSort keyLe).map Prod.fst).Pairwise (· ≤ ·) := by
  rw [List.pairwise_map]
  have h := List.sorted_mergeSort pairKeyLe_trans pairKeyLe_total l
  exact h.imp (fun h => by simpa [keyLe] using h)

theorem mergeSort_key_det (l1 l2 : List (Buffer × RespFrame))
    (hperm : l1.Perm l2) (hnd : (l1.map Prod.fst).Nodup) :
    l1.mergeSort keyLe = l2.mergeSort keyLe := by
  haveI : IsAntisymm (Buffer × RespFrame) (fun a b => a.1 < b.1) :=
    ⟨fun a b h1 h2 => absurd (lt_trans h1 h2) (lt_irrefl _)⟩
  have hp12 : (l1.mergeSort keyLe).Perm (l2.mergeSort keyLe) :=
    ((List.mergeSort_perm l1 keyLe).trans hperm).trans (List.mergeSort_perm l2 keyLe).symm
  have hsorted : ∀ (l : List (Buffer × RespFrame)), (l.map Prod.fst).Nodup →
      List.Sorted (fun a b => a.1 < b.1) (l.mergeSort keyLe) := by
    intro l hl
    have hle : (l.mergeSort keyLe).Pairwise (fun a b => a.1 ≤ b.1) :=
      (List.sorted_mergeSort pairKeyLe_trans pairKeyLe_total l).imp
        (fun h => by simpa [keyLe] using h)
    have hndm : ((l.mergeSort keyLe).map Prod.fst).Nodup :=
      (((List.mergeSort_perm l keyLe).map Prod.fst).nodup_iff).mpr hl
    have hne : (l.mergeSort keyLe).Pairwise (fun a b => a.1 ≠ b.1) :=
      List.pairwise_map.mp hndm
    exact (hle.and hne).imp (fun h => lt_of_le_of_ne h.1 h.2)
  have hnd2 : (l2.map Prod.fst).Nodup := ((hperm.map Prod.fst).nodup_iff).mp hnd
  exact List.eq_of_perm_of_sorted hp12 (hsorted l1 hnd) (hsorted l2 hnd2)

/-! ## Claim theorems -/

/-- **C1**: the two batch-codec phases disagree on the Set grammar: on
`~2\r\n+a\r\n+b\r\n`, phase 1 (`parse_frame_length`, whose `set_advance`
walks all `k` declared element frames) reports a span of all 12 bytes,
while phase 2 (`parse_frame`, whose `set` walks only `len / 2` frames)
stops after one element and leaves `+b\r\n` unconsumed, refuting the
claimed agreement. -/
theorem c1_set_phase_disagreement :
    RespV2.parseFrameLength [126, 50, 13, 10, 43, 97, 13, 10, 43, 98, 13, 10] = .ok 12 ∧
    RespV2.parseFrame [126, 50, 13, 10, 43, 97, 13, 10, 43, 98, 13, 10]
      = some (.set [.simpleString [97]], [43, 98, 13, 10]) :=
  ⟨rfl, rfl⟩

/-- **C2** counterexample: the round trip fails on a SimpleString whose
text contains an embedded CRLF: `decode (encode f)` stops at the embedded
terminator and returns a different frame. -/
theorem c2_roundtrip_counterexample :
    RespFrame.decode (RespFrame.encode (.simpleString [97, 13, 10, 98]))
      = (.ok (.simpleString [97]), [98, 13, 10]) ∧
    RespFrame.simpleString [97] ≠ .simpleString [97, 13, 10, 98] :=
  ⟨rfl, by simp⟩

/-- **C2** (amended): the round trip `decode (encode f) = f` holds for
every well-formed frame: CRLF-free valid-UTF-8 text payloads, `i64`
integers, `usize` lengths, strictly-key-sorted maps, and no Double
(float formatting is outside the byte-exact embedding). -/
theorem c2_roundtrip_wellformed (f : RespFrame) (h : f.wf = true) :
    RespFrame.decode f.encode = (.ok f, []) := by
  have h2 := respDecode_encode f [] h
  simpa using h2

theorem c2_roundtrip_wellformed_witness :
    RespFrame.wf (.array [.integer 5, .bulkString [104, 105]]) = true ∧
    RespFrame.decode (RespFrame.encode (.array [.integer 5, .bulkString [104, 105]]))
      = (.ok (.array [.integer 5, .bulkString [104, 105]]), []) :=
  ⟨by decide, c2_roundtrip_wellformed (.array [.integer 5, .bulkString [104, 105]]) (by decide)⟩

/-- **C3**: incremental-decode atomicity: whenever `RespFrame::decode`
returns `NotComplete`, the buffer is left exactly as it was before the
call; this covers nested Array/Map/Set inputs, whose total byte length is
probed (`expect_length` over the whole structure) before any byte is
consumed. -/
theorem c3_notComplete_never_consumes (buf b2 : Buffer)
    (h : RespFrame.decode buf = (.error .notComplete, b2)) : b2 = buf :=
  decodeF_nc_preserves buf.length buf (Nat.le_refl _) b2 h

theorem c3_notComplete_never_consumes_witness :
    RespFrame.decode [42, 50, 13, 10, 43, 97, 13, 10]
      = (.error .notComplete, [42, 50, 13, 10, 43, 97, 13, 10]) ∧
    [42, 50, 13, 10, 43, 97, 13, 10] = ([42, 50, 13, 10, 43, 97, 13, 10] : Buffer) :=
  ⟨rfl, c3_notComplete_never_consumes [42, 50, 13, 10, 43, 97, 13, 10]
    [42, 50, 13, 10, 43, 97, 13, 10] rfl⟩

/-- **C4** counterexample: the dispatch table matches raw bytes, not
case-insensitively: `GET` lowercases to the known name `get`, yet
`Command::try_from` yields `Unrecognized` instead of the typed `Get`. -/
theorem c4_uppercase_get_unrecognized :
    lowerBytes [71, 69, 84] = getName ∧
    commandTryFrom [.bulkString [71, 69, 84], .bulkString [107, 101, 121]]
      = .ok .unrecognized :=
  ⟨rfl, rfl⟩

/-- **C4** (amended): command lookup is by exact bytes: a first-element
BulkString equal to one of the nine lowercase name literals dispatches to
that command's parser (shown on minimal argument lists), and any other
first-element bytes — including uppercase variants of known names — yield
`Unrecognized`. -/
theorem c4_dispatch_exact_bytes (b : Buffer) (rest : List RespFrame)
    (hb : b ∉ [echoName, getName, setName, hgetName, hmgetName, hsetName,
      hgetallName, addmemberName, sismemberName]) :
    commandTryFrom (.bulkString b :: rest) = .ok .unrecognized ∧
    commandTryFrom [.bulkString echoName, .bulkString [107]] = .ok (.echo [107]) ∧
    commandTryFrom [.bulkString getName, .bulkString [107]] = .ok (.get [107]) ∧
    commandTryFrom [.bulkString setName, .bulkString [107], .null] = .ok (.set [107] .null) ∧
    commandTryFrom [.bulkString hgetName, .bulkString [107], .bulkString [102]]
      = .ok (.hGet [107] [102]) ∧
    commandTryFrom [.bulkString hmgetName, .bulkString [107], .bulkString [102]]
      = .ok (.hMGet [107] [[102]]) ∧
    commandTryFrom [.bulkString hsetName, .bulkString [107], .bulkString [102], .null]
      = .ok (.hSet [107] [102] .null) ∧
    commandTryFrom [.bulkString hgetallName, .bulkString [107]] = .ok (.hGetAll [107] false) ∧
    commandTryFrom [.bulkString addmemberName, .bulkString [107], .bulkString [109]]
      = .ok (.addMember [107] [109]) ∧
    commandTryFrom [.bulkString sismemberName, .bulkString [107], .bulkString [109]]
      = .ok (.sisMember [107] [109]) := by
  refine ⟨?_, rfl, rfl, rfl, rfl, rfl, rfl, rfl, rfl, rfl⟩
  simp only [List.mem_cons, List.mem_singleton] at hb
  push_neg at hb
  obtain ⟨h1, h2, h3, h4, h5, h6, h7, h8, h9, -⟩ := hb
  unfold commandTryFrom
  rw [show ((RespFrame.bulkString b :: rest).head?) = some (RespFrame.bulkString b)
    from rfl]
  dsimp only
  rw [if_neg h1, if_neg h2, if_neg h3, if_neg h4, if_neg h5, if_neg h6, if_neg h7,
    if_neg h8, if_neg h9]

theorem c4_dispatch_exact_bytes_witness :
    ([71, 69, 84] : Buffer) ∉ [echoName, getName, setName, hgetName, hmgetName,
      hsetName, hgetallName, addmemberName, sismemberName] ∧
    commandTryFrom [.bulkString [71, 69, 84]] = .ok .unrecognized :=
  ⟨by decide, (c4_dispatch_exact_bytes [71, 69, 84] [] (by decide)).1⟩

/-- **C5**: the batch codec rejects both null wire forms: phase 1 accepts
`$-1\r\n` and `*-1\r\n` (its `integer` helper reads the sign), but phase 2
parses the length with `digit1`, which fails on `-`, so
`RespDecodeV2::decode` consumes the bytes and returns `InvalidFrame`
instead of the claimed null values. -/
theorem c5_null_form_batch_decode_fails :
    RespV2.parseFrameLength [36, 45, 49, 13, 10] = .ok 5 ∧
    RespV2.parseFrameLength [42, 45, 49, 13, 10] = .ok 5 ∧
    RespV2.decodeV2 [36, 45, 49, 13, 10] = (.error (.invalidFrame "invalid frame"), []) ∧
    RespV2.decodeV2 [42, 45, 49, 13, 10] = (.error (.invalidFrame "invalid frame"), []) :=
  ⟨rfl, rfl, rfl, rfl⟩

/-- **C6**: encoding collapses empty to null: an empty BulkString encodes
to exactly `$-1\r\n` and an empty Array to exactly `*-1\r\n`. -/
theorem c6_empty_encodes_null :
    RespFrame.encode (.bulkString []) = nullBulkBytes ∧
    RespFrame.encode (.array []) = nullArrayBytes :=
  ⟨rfl, rfl⟩

/-- **C7** counterexample: a SimpleString with the non-UTF-8 body `0xFF`
is not rejected as malformed: decode succeeds, reading the body through
`from_utf8_lossy` (yielding the U+FFFD replacement character). -/
theorem c7_lossy_counterexample :
    utf8Valid [255] = false ∧
    RespFrame.decode [43, 255, 13, 10] = (.ok (.simpleString [239, 191, 189]), []) :=
  ⟨rfl, rfl⟩

/-- **C7** (amended): the incremental codec never returns a malformed-frame
error for non-UTF-8 text: for any CRLF-free body (valid UTF-8 or not),
decoding `+body\r\n` and `-body\r\n` succeeds with the body read through
`from_utf8_lossy`. -/
theorem c7_text_decode_is_lossy (body : Buffer) (hs : hasCRLF body = false) :
    RespFrame.decode (43 :: (body ++ [13, 10]))
      = (.ok (.simpleString (utf8Lossy body)), []) ∧
    RespFrame.decode (45 :: (body ++ [13, 10]))
      = (.ok (.simpleError (utf8Lossy body)), []) := by
  constructor
  · rw [decode_cons 43 (body ++ [13, 10])]
    unfold decodeStep
    rw [show (43 :: (body ++ [13, 10])).head? = some 43 from rfl,
      simpleStringDecode_lossy body [] hs]
  · rw [decode_cons 45 (body ++ [13, 10])]
    unfold decodeStep
    rw [show (45 :: (body ++ [13, 10])).head? = some 45 from rfl,
      simpleErrorDecode_lossy body [] hs]

theorem c7_text_decode_is_lossy_witness :
    hasCRLF [255] = false ∧
    RespFrame.decode (43 :: ([255] ++ [13, 10]))
      = (.ok (.simpleString [239, 191, 189]), []) :=
  ⟨by decide, ((c7_text_decode_is_lossy [255] (by decide)).1).trans (by rfl)⟩

/-- **C8**: `HGetAll::execute` on a snapshot of the key's hash entries: a
missing key and an empty entry both yield an empty Array (never Null);
with `sort` unset the pairs are flattened in snapshot order; with `sort`
set the output is the flattening of a permutation of the entries whose
field names are in ascending lexicographic order, and — the determinism
consequence — any two snapshot orders of the same distinct-field entries
produce the same sorted output. -/
theorem c8_hgetall_execute (l l2 : List (Buffer × RespFrame))
    (hperm : l.Perm l2) (hnd : (l.map Prod.fst).Nodup) :
    (∀ s2, hGetAllExecute none s2 = .array []) ∧
    (∀ s2, hGetAllExecute (some []) s2 = .array []) ∧
    (∀ t, hGetAllExecute (some t) false = .array (flattenPairs t)) ∧
    (∃ t, t.Perm l ∧ ((t.map Prod.fst).Pairwise (· ≤ ·)) ∧
      hGetAllExecute (some l) true = .array (flattenPairs t)) ∧
    hGetAllExecute (some l) true = hGetAllExecute (some l2) true := by
  refine ⟨fun s2 => rfl, fun s2 => ?_, fun t => rfl, ?_, ?_⟩
  · cases s2 <;> simp [hGetAllExecute, flattenPairs, List.mergeSort_nil]
  · exact ⟨l.mergeSort keyLe, List.mergeSort_perm l keyLe, mergeSort_key_sorted l, rfl⟩
  · show RespFrame.array (flattenPairs (l.mergeSort keyLe))
        = RespFrame.array (flattenPairs (l2.mergeSort keyLe))
    rw [mergeSort_key_det l l2 hperm hnd]

theorem c8_hgetall_execute_witness :
    ([([98], RespFrame.null), ([97], RespFrame.boolean true)]
      : List (Buffer × RespFrame)).Perm
      [([97], RespFrame.boolean true), ([98], RespFrame.null)] ∧
    hGetAllExecute (some [([98], .null), ([97], .boolean true)]) true
      = hGetAllExecute (some [([97], .boolean true), ([98], .null)]) true := by
  have hp : ([([98], RespFrame.null), ([97], RespFrame.boolean true)]
      : List (Buffer × RespFrame)).Perm
      [([97], RespFrame.boolean true), ([98], RespFrame.null)] :=
    List.Perm.swap ([97], RespFrame.boolean true) ([98], RespFrame.null) []
  exact ⟨hp, (c8_hgetall_execute _ _ hp (by decide)).2.2.2.2⟩

/-- **C9**: `SisMember::execute` delegates to `Backend::sis_member`, which
(as the spec itself records in its open question 1) returns `Integer 1`
for every store state, key and member — so an absent member is reported as
present, refuting the claimed `Integer 0` branch. -/
theorem c9_sismember_always_one (sets : List (Buffer × List Buffer))
    (key member : Buffer) :
    sisMemberExecute sets key member = .integer 1 ∧
    RespFrame.integer 1 ≠ .integer 0 :=
  ⟨rfl, by simp⟩

/-- **C10**: every `HGetAll` command built by the wire parser has
`sort = false`: whenever `Command::try_from` succeeds with an `HGetAll`,
its sort flag is `false`, so the ascending-ordered response is unreachable
through protocol input. -/
theorem c10_wire_hgetall_never_sorts (value : List RespFrame) (k : Buffer) (s : Bool)
    (h : commandTryFrom value = .ok (.hGetAll k s)) : s = false := by
  unfold commandTryFrom at h
  split at h
  · split_ifs at h
    all_goals try simp only [echoTryFrom, getTryFrom, setTryFrom, hGetTryFrom,
      hMGetTryFrom, hSetTryFrom, hGetAllTryFrom, addMemberTryFrom,
      sisMemberTryFrom] at h
    all_goals try split at h
    all_goals try split at h
    all_goals try split at h
    all_goals try split at h
    all_goals try split at h
    all_goals simp_all
  · simp at h

theorem c10_wire_hgetall_never_sorts_witness :
    commandTryFrom [.bulkString hgetallName, .bulkString [109]]
      = .ok (.hGetAll [109] false) ∧
    false = false :=
  ⟨rfl, c10_wire_hgetall_never_sorts [.bulkString hgetallName, .bulkString [109]]
    [109] false rfl⟩
